import Mathlib

/-!
# EPROM-TMS2532 host client: serial line protocol

A shallow embedding of `eprom-client/eprom_client.cpp`.

* A C `char` and a byte on the serial line are a `Char`; a line is a `List Char`.
* A `uint8_t` is a `Nat`, reduced `% 256` wherever the source stores into one.
* The `int` out-parameter `addr` of `parseRx` is the `Nat` holding its 32-bit pattern.
* The serial port is the list of bytes the device still has to deliver (`rx`) together with
  the strings handed to `sendData` so far (`tx`).  A blocking read on an exhausted `rx`
  never returns; the model then yields `none`.
* `cerr` is the list of messages written to it; the `printf`/`cout` traces are not modelled,
  except the line `main` prints when `open` fails.
* `main` is modelled from the call of `open` on; the handle it gets is a parameter.  A
  handle that failed to open delivers no byte, which is a host state with an empty `rx`.
-/

namespace EpromClient

/-! ## Constants -/

/-- Source: `static const int REC_SIZE = 16;` -/
def REC_SIZE : Nat := 16

/-- Source: `static const int ROM_SIZE = 1024*2;` -/
def ROM_SIZE : Nat := 1024 * 2

/-! ## hexToInt -/

/-- Source: `bool hexToInt(char a, uint8_t& val)`.  `some v` stands for `return true` with
`val = v`; `none` stands for the `default:` branch (`return false`, `val` untouched). -/
def hexToInt (a : Char) : Option Nat :=
  match a with
  | '0' | '1' | '2' | '3' | '4' | '5' | '6' | '7' | '8' | '9' => some ((a.toNat - 0x30) % 256)
  | 'a' | 'b' | 'c' | 'd' | 'e' | 'f' => some ((a.toNat - 'a'.toNat + 10) % 256)
  | _ => none

/-- The message the `default:` branch of `hexToInt` writes to `cerr`. -/
def hexErrMsg : String := "ERROR: cannot convert hex value"

/-! ## parseRx -/

/-- Source: `enum {NA, HEADER, DATA, CKSUM} state;` inside `parseRx`. -/
inductive PState where
  | NA
  | HEADER
  | DATA
  | CKSUM
  deriving DecidableEq, Repr

/-- The variables of `parseRx`: the locals `state`, `idx`, `tmpVal`, the out-parameters
`addr`, `d`, `ckSum`, and the `cerr` lines written by the `hexToInt` calls. -/
structure PVars where
  state : PState
  idx : Nat
  tmpVal : Nat
  addr : Nat
  d : List Nat
  ckSum : Nat
  cerr : List String
  deriving DecidableEq, Repr

/-- One pass through the body of the `while(inItr != inD.end())` loop of `parseRx`, for the
character `c = *inItr`.  The `Bool` is `false` when the body executes `return false`. -/
def parseStep (c : Char) (s : PVars) : Bool × PVars :=
  match s.state with
  | PState.HEADER =>
    if c = ':' then (true, { s with state := PState.DATA })
    else if c ≠ 'H' then
      match hexToInt c with
      | none => (false, { s with cerr := s.cerr ++ [hexErrMsg] })
      | some val => (true, { s with addr := ((s.addr <<< 4) ||| val) % 2 ^ 32 })
    else (true, s)
  | PState.DATA =>
    if c = ',' then (true, { s with state := PState.CKSUM })
    else
      match hexToInt c with
      | none => (false, { s with cerr := s.cerr ++ [hexErrMsg] })
      | some val =>
        let tmpVal := ((s.tmpVal <<< 4) ||| val) % 256
        let idx := (s.idx + 1) % 2 ^ 32
        if idx = 2 then (true, { s with d := s.d ++ [tmpVal], tmpVal := 0, idx := 0 })
        else (true, { s with tmpVal := tmpVal, idx := idx })
  | PState.CKSUM =>
    match hexToInt c with
    | none => (false, { s with cerr := s.cerr ++ [hexErrMsg] })
    | some val =>
      let tmpVal := ((s.tmpVal <<< 4) ||| val) % 256
      let idx := (s.idx + 1) % 2 ^ 32
      if idx = 2 then (true, { s with tmpVal := tmpVal, idx := idx, ckSum := tmpVal })
      else (true, { s with tmpVal := tmpVal, idx := idx })
  | PState.NA => (true, s)

/-- The `while(inItr != inD.end())` loop of `parseRx`: the body runs on each character in
turn until one returns `false` or the line ends (`return true`). -/
def parseLoop : List Char → PVars → Bool × PVars
  | [], s => (true, s)
  | c :: cs, s =>
    match parseStep c s with
    | (false, s) => (false, s)
    | (true, s) => parseLoop cs s

/-- Source: `bool parseRx(const string& inD, int& addr, vector<uint8_t>& d, uint8_t& ckSum)`.
The arguments `addr`, `d`, `ckSum` are the values the caller's variables hold on entry; the
result carries the return value and the variables on exit (also when it returns `false`). -/
def parseRx (inD : List Char) (addr : Nat) (d : List Nat) (ckSum : Nat) : Bool × PVars :=
  parseLoop inD
    { state := PState.HEADER, idx := 0, tmpVal := 0, addr := addr, d := d, ckSum := ckSum,
      cerr := [] }

/-! ## printf conversions -/

/-- The C conversion `%P.Px` (`%4.4x`, `%2.2x`) of a non-negative value: its lowercase
hexadecimal digits, padded on the left with `'0'` up to `prec` digits. -/
def printfHex (prec n : Nat) : List Char :=
  let ds := Nat.toDigits 16 n
  List.replicate (prec - ds.length) '0' ++ ds

/-! ## Checksums -/

/-- Source: the checksum loop of `readEprom`,
`for(auto val: parsedData) ckSum = ckSum ^ (val & 0xff);` followed by `ckSum = ckSum & 0xff;`. -/
def readCkSum (parsedData : List Nat) : Nat :=
  (parsedData.foldl (fun ckSum val => ckSum ^^^ (val &&& 0xff)) 0) &&& 0xff

/-- Source: the `for(auto val: data)` loop of `writeEprom`: each byte is folded into `ckSum`
and its two hex digits are appended to `writeStr`. -/
def writeLoop : List Nat → Nat → List Char → Nat × List Char
  | [], ckSum, writeStr => (ckSum, writeStr)
  | val :: rest, ckSum, writeStr => writeLoop rest (ckSum ^^^ val) (writeStr ++ printfHex 2 val)

/-- Source: the string `writeEprom` passes to `sendData`, for the address `addr` and the
`REC_SIZE` bytes `data` read from the input file. -/
def writeStr (addr : Nat) (data : List Nat) : List Char :=
  let r := writeLoop data 0 ('W' :: printfHex 4 addr ++ [':'])
  let ckSum := r.1 &&& 0xff
  r.2 ++ (',' :: printfHex 2 ckSum ++ ['\n'])

/-! ## The input file -/

/-- The `ifstream ifs`: the bytes not yet extracted and whether `eofbit`/`failbit` is set. -/
structure IfStream where
  rest : List Nat
  bad : Bool
  deriving DecidableEq, Repr

/-- Source: `ifs.read(buf, n)` followed by the test `ifs.eof() || ifs.fail()`.  `some data`:
`n` bytes were extracted and neither bit is set.  A stream with a bit already set extracts
nothing; a stream with fewer than `n` bytes left extracts them and sets both bits. -/
def IfStream.read (s : IfStream) (n : Nat) : Option (List Nat) × IfStream :=
  if s.bad then (none, s)
  else if n ≤ s.rest.length then (some (s.rest.take n), { rest := s.rest.drop n, bad := false })
  else (none, { rest := [], bad := true })

/-! ## Transport and host state -/

/-- The globals the sessions work on: the serial port (`rx`, `tx`), `ifs`, `ofs`, `cerr`. -/
structure Host where
  rx : List Char
  tx : List (List Char)
  ifs : IfStream
  ofs : List Nat
  cerr : List String
  deriving DecidableEq, Repr

/-- Source: `bool sendData(const string& d)`. -/
def sendData (d : List Char) (w : Host) : Host :=
  { w with tx := w.tx ++ [d] }

/-- The `do ... while (1)` loop of `readRx` over the bytes still to arrive; `acc` is
`rxData`.  The result is `rxData` and the bytes left unread. -/
def readRxLoop : List Char → List Char → Option (List Char × List Char)
  | [], _ => none
  | c :: rest, acc =>
    if c = Char.ofNat 0x0d then readRxLoop rest acc
    else if c = Char.ofNat 0x0a then some (acc, rest)
    else readRxLoop rest (acc ++ [c])

/-- Source: `bool readRx(string& rxData)`. -/
def readRx (w : Host) : Option (List Char × Host) :=
  match readRxLoop w.rx [] with
  | none => none
  | some (rxData, rest) => some (rxData, { w with rx := rest })

/-! ## readEprom, writeEprom and the session loops of main -/

/-- The message `readEprom` writes to `cerr` on a checksum mismatch. -/
def ckErrMsg : String := "ERROR: Check sum missmatch"

/-- The message `readEprom` and `writeEprom` write to `cerr` for a status line other
than `OK`. -/
def respErrMsg (rxData : List Char) : String := "ERROR, Got response: " ++ String.mk rxData

/-- Source: `bool readEprom(int a)`. -/
def readEprom (a : Nat) (w : Host) : Option (Bool × Host) :=
  let w := sendData ('R' :: printfHex 4 a ++ ['\n']) w
  match readRx w with
  | none => none
  | some (rxData, w) =>
    let p := parseRx rxData 0 [] 0
    let w := { w with cerr := w.cerr ++ p.2.cerr }
    let parsedData := p.2.d
    let rxCkSum := p.2.ckSum
    let ckSum := readCkSum parsedData
    if rxCkSum ≠ ckSum then some (false, { w with cerr := w.cerr ++ [ckErrMsg] })
    else
      match readRx w with
      | none => none
      | some (rxData, w) =>
        if rxData ≠ ['O', 'K'] then some (false, { w with cerr := w.cerr ++ [respErrMsg rxData] })
        else some (true, { w with ofs := w.ofs ++ parsedData })

/-- Source: `bool writeEprom(int addr)`. -/
def writeEprom (addr : Nat) (w : Host) : Option (Bool × Host) :=
  match w.ifs.read REC_SIZE with
  | (none, ifs) => some (true, { w with ifs := ifs })
  | (some data, ifs) =>
    let w := sendData (writeStr addr data) { w with ifs := ifs }
    match readRx w with
    | none => none
    | some (rxData, w) =>
      if rxData ≠ ['O', 'K'] then some (false, { w with cerr := w.cerr ++ [respErrMsg rxData] })
      else some (true, w)

/-- Source: the loops `for(int a=0; a < N; a++) body(a * REC_SIZE);` of `main`, whose return
values are discarded: `k` iterations are still to run and `a` is the loop variable. -/
def forRecords (body : Nat → Host → Option (Bool × Host)) : Nat → Nat → Host → Option Host
  | 0, _, w => some w
  | k + 1, a, w =>
    match body (a * REC_SIZE) w with
    | none => none
    | some (_, w) => forRecords body k (a + 1) w

/-- A read session over `n` records: `case CMD_RX` of `main` with `n` for
`ROM_SIZE / REC_SIZE`. -/
def readSession (n : Nat) (w : Host) : Option Host :=
  forRecords readEprom n 0 w

/-- A write session over `n` records: `case CMD_TX` of `main` with `n` for
`ROM_SIZE / REC_SIZE`. -/
def writeSession (n : Nat) (w : Host) : Option Host :=
  forRecords writeEprom n 0 w

/-- Source: `case CMD_RX` of `main`. -/
def mainRx (w : Host) : Option Host :=
  readSession (ROM_SIZE / REC_SIZE) w

/-- Source: `case CMD_TX` of `main`. -/
def mainTx (w : Host) : Option Host :=
  writeSession (ROM_SIZE / REC_SIZE) w

/-- The host state at the start of a session: nothing sent, nothing written, nothing
reported; `rx` is what the device will deliver and `file` the content of the input file. -/
def Host.start (rx : List Char) (file : List Nat) : Host :=
  { rx := rx, tx := [], ifs := { rest := file, bad := false }, ofs := [], cerr := [] }

/-! ## getVersion and main -/

/-- Source: `typedef enum {CMD_NA, CMD_VER, CMD_RX, CMD_TX} CMD;` -/
inductive CMD where
  | CMD_NA
  | CMD_VER
  | CMD_RX
  | CMD_TX
  deriving DecidableEq, Repr

/-- Source: `bool getVersion()`. -/
def getVersion (w : Host) : Option (Bool × Host) :=
  let w := sendData ['V', '\n'] w
  match readRx w with
  | none => none
  | some (_, w) => some (true, w)

/-- The line `main` prints on `cout` when `open` returns a negative handle. -/
def openErrMsg : String := "ERROR: cannot open serial port"

/-- Source: `main` from `ifd = open("/dev/ttyUSB0", O_RDWR | O_NONBLOCK);` to `return 0;`,
for the command `cmd` the arguments selected and the handle `ifd` that `open` returned.
The result is the lines printed on `cout` by the test `if(ifd < 0)`, the exit status and the
host state.  `tcsetattr`, `usleep`, `cleanRx` (which discards the bytes buffered before the
session) and `close` leave the host state as it is. -/
def main (cmd : CMD) (ifd : Int) (w : Host) : Option (List String × Int × Host) :=
  let cout := if ifd < 0 then [openErrMsg] else []
  match cmd with
  | CMD.CMD_VER =>
    match getVersion w with
    | none => none
    | some (_, w) => some (cout, 0, w)
  | CMD.CMD_RX =>
    match mainRx w with
    | none => none
    | some w => some (cout, 0, w)
  | CMD.CMD_TX =>
    match mainTx w with
    | none => none
    | some w => some (cout, 0, w)
  | CMD.CMD_NA => some (cout, 0, w)

end EpromClient

/-! ## Specification-side definitions -/

namespace EpromClient

/-- The characters `hexToInt` is specified to accept: `'0'..'9'` and `'a'..'f'`. -/
def isLowerHex (c : Char) : Prop :=
  ('0' ≤ c ∧ c ≤ '9') ∨ ('a' ≤ c ∧ c ≤ 'f')

instance (c : Char) : Decidable (isLowerHex c) := by
  unfold isLowerHex; infer_instance

/-- The numeric value of a hex digit as the specification gives it: `'0'..'9'` are `0..9`
and `'a'..'f'` are `10..15`. -/
def hexDigitValue (c : Char) : Nat :=
  if c ≤ '9' then c.toNat - '0'.toNat else 10 + (c.toNat - 'a'.toNat)

/-- The XOR-fold of a byte sequence, as the specification defines the checksum before
masking. -/
def xorFold (payload : List Nat) : Nat :=
  payload.foldl (fun x y => x ^^^ y) 0

/-- The characters the record grammar allows on a line: a lowercase hex digit, `':'`, `','`
or the header marker `'H'`. -/
def allowedChar (c : Char) : Prop :=
  isLowerHex c ∨ c = ':' ∨ c = ',' ∨ c = 'H'

instance (c : Char) : Decidable (allowedChar c) := by
  unfold allowedChar; infer_instance

/-- The base-16 value of a string of hex digits, most significant digit first. -/
def hexValue (digits : List Char) : Nat :=
  digits.foldl (fun a c => 16 * a + hexDigitValue c) 0

/-- The header field with every marker `'H'` skipped. -/
def skipMarker (header : List Char) : List Char :=
  header.filter (fun c => c ≠ 'H')

/-- The bytes formed from consecutive digit pairs, high nibble first, in order. -/
def pairBytes : List Char → List Nat
  | c1 :: c2 :: rest => (16 * hexDigitValue c1 + hexDigitValue c2) :: pairBytes rest
  | _ => []

/-- The lowercase hex digit of a value `0..15`: the character at that position of
`0123456789abcdef`. -/
def lowerHexDigit (v : Nat) : Char :=
  "0123456789abcdef".toList.getD v '?'

/-- A byte as 2 zero-padded lowercase hex digits. -/
def hex2 (b : Nat) : List Char :=
  [lowerHexDigit (b / 16), lowerHexDigit (b % 16)]

/-- An address as 4 zero-padded lowercase hex digits. -/
def hex4 (a : Nat) : List Char :=
  [lowerHexDigit (a / 4096), lowerHexDigit (a / 256 % 16), lowerHexDigit (a / 16 % 16),
    lowerHexDigit (a % 16)]

/-- The write command of the wire protocol for `addr` and `payload`: `'W'`, the address as
4 hex digits, `':'`, 2 hex digits per payload byte, `','`, the 2 hex digits of the masked XOR
of the payload, and the line terminator. -/
def writeCommand (addr : Nat) (payload : List Nat) : List Char :=
  'W' :: (hex4 addr ++ ':' :: ((payload.map hex2).flatten
    ++ ',' :: (hex2 (xorFold payload &&& 0xff) ++ [Char.ofNat 0x0a])))

/-- The bytes the device delivers when it answers with the lines `resps`, each ended by a
line feed. -/
def respStream (resps : List (List Char)) : List Char :=
  (resps.map (fun l => l ++ [Char.ofNat 0x0a])).flatten

/-- The `i`-th 16-byte record of the input file: the bytes `[16*i, 16*i+16)`. -/
def fileRecord (file : List Nat) (i : Nat) : List Nat :=
  (file.drop (16 * i)).take 16

/-- A record line as a fully successful exchange needs it: `parseRx` accepts it and the
checksum it carries equals the XOR of the parsed payload masked to 8 bits. -/
def goodRecord (line : List Char) : Prop :=
  (parseRx line 0 [] 0).1 = true ∧
  (parseRx line 0 [] 0).2.ckSum = xorFold (parseRx line 0 [] 0).2.d &&& 0xff

instance (line : List Char) : Decidable (goodRecord line) := by
  unfold goodRecord; infer_instance

/-- A record line that `parseRx` accepts but whose checksum differs from the XOR of the
parsed payload masked to 8 bits. -/
def mismatchRecord (line : List Char) : Prop :=
  (parseRx line 0 [] 0).1 = true ∧
  (parseRx line 0 [] 0).2.ckSum ≠ xorFold (parseRx line 0 [] 0).2.d &&& 0xff

instance (line : List Char) : Decidable (mismatchRecord line) := by
  unfold mismatchRecord; infer_instance

/-- The payload `parseRx` decodes from a record line. -/
def payloadOf (line : List Char) : List Nat :=
  (parseRx line 0 [] 0).2.d

/-- The bytes the device delivers for the record lines `lines` when each is followed by the
status line `OK`, every line ended by a line feed. -/
def recordStream (lines : List (List Char)) : List Char :=
  (lines.map (fun l => l ++ Char.ofNat 0x0a :: 'O' :: 'K' :: [Char.ofNat 0x0a])).flatten

/-- The read command of the wire protocol for the record `i`: `'R'`, the address `16 * i`
as 4 zero-padded lowercase hex digits, and a line feed. -/
def readCommand (i : Nat) : List Char :=
  'R' :: (hex4 (16 * i) ++ [Char.ofNat 0x0a])

/-- A string of lowercase hex digits, `[0-9a-f]*`. -/
def hexString (l : List Char) : Prop :=
  ∀ c ∈ l, isLowerHex c

/-- A header field, `[0-9a-fH]*`. -/
def headerString (l : List Char) : Prop :=
  ∀ c ∈ l, isLowerHex c ∨ c = 'H'

/-- The language `[0-9a-fH]* ( ':' [0-9a-f]* ( ',' [0-9a-f]* )? )?`. -/
def recordLanguage (line : List Char) : Prop :=
  headerString line ∨
  (∃ header data : List Char, line = header ++ ':' :: data ∧ headerString header ∧
    hexString data) ∨
  (∃ header data ck : List Char, line = header ++ ':' :: (data ++ ',' :: ck) ∧
    headerString header ∧ hexString data ∧ hexString ck)

/-- Carriage return, `0x0D`. -/
def CR : Char := Char.ofNat 0x0d

/-- Line feed, `0x0A`. -/
def LF : Char := Char.ofNat 0x0a

end EpromClient

/-! ## Theorems -/

namespace EpromClient

/-! ### hexToInt -/

theorem char_eq_of_toNat {c : Char} {n : Nat} (h : c.toNat = n) : c = Char.ofNat n := by
  rw [← h, Char.ofNat_toNat]

theorem char_le_iff (a b : Char) : a ≤ b ↔ a.toNat ≤ b.toNat := by
  rfl

theorem not_isLowerHex_of_ne {c : Char}
    (h0 : c ≠ '0') (h1 : c ≠ '1') (h2 : c ≠ '2') (h3 : c ≠ '3') (h4 : c ≠ '4') (h5 : c ≠ '5')
    (h6 : c ≠ '6') (h7 : c ≠ '7') (h8 : c ≠ '8') (h9 : c ≠ '9') (ha : c ≠ 'a') (hb : c ≠ 'b')
    (hc : c ≠ 'c') (hd : c ≠ 'd') (he : c ≠ 'e') (hf : c ≠ 'f') : ¬ isLowerHex c := by
  unfold isLowerHex
  simp only [char_le_iff]
  intro h
  have e0 : '0'.toNat = 48 := rfl
  have e9 : '9'.toNat = 57 := rfl
  have ea : 'a'.toNat = 97 := rfl
  have ef : 'f'.toNat = 102 := rfl
  rw [e0, e9, ea, ef] at h
  rcases h with ⟨hl, hu⟩ | ⟨hl, hu⟩
  · interval_cases hh : c.toNat
    all_goals
      have hch := char_eq_of_toNat hh
      simp_all
  · interval_cases hh : c.toNat
    all_goals
      have hch := char_eq_of_toNat hh
      simp_all

theorem hexToInt_eq (c : Char) :
    hexToInt c = if isLowerHex c then some (hexDigitValue c) else none := by
  unfold hexToInt
  split
  all_goals first
    | rfl
    | (rename_i h0 h1 h2 h3 h4 h5 h6 h7 h8 h9 ha hb hc hd he hf
       rw [if_neg (not_isLowerHex_of_ne h0 h1 h2 h3 h4 h5 h6 h7 h8 h9 ha hb hc hd he hf)])

theorem hexToInt_of_isLowerHex {c : Char} (h : isLowerHex c) :
    hexToInt c = some (hexDigitValue c) := by
  rw [hexToInt_eq, if_pos h]

theorem hexToInt_of_not_isLowerHex {c : Char} (h : ¬ isLowerHex c) : hexToInt c = none := by
  rw [hexToInt_eq, if_neg h]

theorem hexDigitValue_le {c : Char} (h : isLowerHex c) : hexDigitValue c ≤ 15 := by
  unfold isLowerHex at h
  unfold hexDigitValue
  simp only [char_le_iff] at h ⊢
  have e0 : '0'.toNat = 48 := rfl
  have e9 : '9'.toNat = 57 := rfl
  have ea : 'a'.toNat = 97 := rfl
  have ef : 'f'.toNat = 102 := rfl
  rw [e0, e9, ea, ef] at h
  rw [e0, e9, ea]
  split <;> omega

theorem not_isLowerHex_upper {c : Char} (h : 'A' ≤ c ∧ c ≤ 'F') : ¬ isLowerHex c := by
  unfold isLowerHex
  simp only [char_le_iff] at h ⊢
  have e0 : '0'.toNat = 48 := rfl
  have e9 : '9'.toNat = 57 := rfl
  have ea : 'a'.toNat = 97 := rfl
  have ef : 'f'.toNat = 102 := rfl
  have eA : 'A'.toNat = 65 := rfl
  have eF : 'F'.toNat = 70 := rfl
  rw [eA, eF] at h
  rw [e0, e9, ea, ef]
  omega

/-- C6: `hexToInt` succeeds exactly on `'0'..'9'` and `'a'..'f'`; on success the value is the
digit's numeric value (`'0'..'9'` give `0..9`, `'a'..'f'` give `10..15`), at most 15; it
fails on every other character, the uppercase letters `'A'..'F'` included. -/
theorem hexToInt_succeeds_iff_lower_hex (c : Char) :
    ((∃ v, hexToInt c = some v) ↔ (('0' ≤ c ∧ c ≤ '9') ∨ ('a' ≤ c ∧ c ≤ 'f'))) ∧
    (('0' ≤ c ∧ c ≤ '9') → hexToInt c = some (c.toNat - '0'.toNat)) ∧
    (('a' ≤ c ∧ c ≤ 'f') → hexToInt c = some (10 + (c.toNat - 'a'.toNat))) ∧
    (∀ v, hexToInt c = some v → v ≤ 15) ∧
    (¬ (('0' ≤ c ∧ c ≤ '9') ∨ ('a' ≤ c ∧ c ≤ 'f')) → hexToInt c = none) ∧
    (('A' ≤ c ∧ c ≤ 'F') → hexToInt c = none) := by
  refine ⟨?_, ?_, ?_, ?_, ?_, ?_⟩
  · constructor
    · rintro ⟨v, hv⟩
      by_contra hn
      rw [hexToInt_of_not_isLowerHex hn] at hv
      cases hv
    · intro h
      exact ⟨_, hexToInt_of_isLowerHex h⟩
  · intro h
    rw [hexToInt_of_isLowerHex (Or.inl h)]
    simp [hexDigitValue, h.2]
  · intro h
    rw [hexToInt_of_isLowerHex (Or.inr h)]
    have h9 : ¬ c ≤ '9' := by
      have := h.1
      simp only [char_le_iff] at this ⊢
      have e9 : '9'.toNat = 57 := rfl
      have ea : 'a'.toNat = 97 := rfl
      rw [ea] at this
      rw [e9]
      omega
    simp [hexDigitValue, h9]
  · intro v hv
    by_cases h : isLowerHex c
    · rw [hexToInt_of_isLowerHex h] at hv
      cases hv
      exact hexDigitValue_le h
    · rw [hexToInt_of_not_isLowerHex h] at hv
      cases hv
  · intro h
    exact hexToInt_of_not_isLowerHex h
  · intro h
    exact hexToInt_of_not_isLowerHex (not_isLowerHex_upper h)

/-- C6 at concrete characters: `'7'` is 7, `'c'` is 12, `'C'` and `'g'` are rejected. -/
theorem hexToInt_succeeds_iff_lower_hex_witness :
    hexToInt '7' = some 7 ∧ hexToInt 'c' = some 12 ∧ hexToInt 'C' = none ∧
    hexToInt 'g' = none :=
  ⟨(hexToInt_succeeds_iff_lower_hex '7').2.1 (by decide),
   (hexToInt_succeeds_iff_lower_hex 'c').2.2.1 (by decide),
   (hexToInt_succeeds_iff_lower_hex 'C').2.2.2.2.2 (by decide),
   (hexToInt_succeeds_iff_lower_hex 'g').2.2.2.2.1 (by decide)⟩

/-! ### Checksums -/

theorem foldl_xor_mask (l : List Nat) :
    ∀ a b : Nat, a &&& 0xff = b &&& 0xff →
      (l.foldl (fun ckSum val => ckSum ^^^ (val &&& 0xff)) a) &&& 0xff
        = (l.foldl (fun x y => x ^^^ y) b) &&& 0xff := by
  induction l with
  | nil => intro a b h; simpa using h
  | cons v rest ih =>
    intro a b h
    simp only [List.foldl_cons]
    apply ih
    rw [Nat.and_xor_distrib_right, Nat.and_xor_distrib_right, h, Nat.and_assoc, Nat.and_self]

theorem readCkSum_eq (payload : List Nat) : readCkSum payload = xorFold payload &&& 0xff := by
  unfold readCkSum xorFold
  exact foldl_xor_mask payload 0 0 rfl

theorem writeLoop_fst (data : List Nat) :
    ∀ (ck : Nat) (ws : List Char),
      (writeLoop data ck ws).1 = data.foldl (fun x y => x ^^^ y) ck := by
  induction data with
  | nil => intro ck ws; rfl
  | cons v rest ih =>
    intro ck ws
    simp only [writeLoop, List.foldl_cons]
    exact ih _ _

theorem writeLoop_snd (data : List Nat) :
    ∀ (ck : Nat) (ws : List Char),
      (writeLoop data ck ws).2 = ws ++ (data.map (printfHex 2)).flatten := by
  induction data with
  | nil => intro ck ws; simp [writeLoop]
  | cons v rest ih =>
    intro ck ws
    simp only [writeLoop, List.map_cons, List.flatten_cons]
    rw [ih]
    simp

theorem and_255_lt (n : Nat) : n &&& 0xff < 256 := by
  have h : n &&& 0xff ≤ 0xff := Nat.and_le_right
  omega

/-- C5: for every payload (any length, the empty one included) the checksum the read path
computes and the checksum the write path computes both equal the XOR-fold of the payload
masked to `0xFF`, hence lie in `0..255`; for `[0x55, 0xAA, 0x00]` both are `0xFF`. -/
theorem checksum_is_masked_xor_fold (payload : List Nat) (ws : List Char) :
    readCkSum payload = xorFold payload &&& 0xff ∧
    (writeLoop payload 0 ws).1 &&& 0xff = xorFold payload &&& 0xff ∧
    readCkSum payload ≤ 255 ∧
    (writeLoop payload 0 ws).1 &&& 0xff ≤ 255 ∧
    readCkSum [0x55, 0xAA, 0x00] = 0xFF ∧
    (writeLoop [0x55, 0xAA, 0x00] 0 ws).1 &&& 0xff = 0xFF := by
  refine ⟨readCkSum_eq payload, ?_, ?_, ?_, ?_, ?_⟩
  · rw [writeLoop_fst]; rfl
  · rw [readCkSum_eq]
    have := and_255_lt (xorFold payload)
    omega
  · have := and_255_lt (writeLoop payload 0 ws).1
    omega
  · decide
  · rw [writeLoop_fst]; decide

/-! ### readRx -/

theorem readRxLoop_line (pre post : List Char) (h : LF ∉ pre) :
    ∀ acc : List Char,
      readRxLoop (pre ++ LF :: post) acc = some (acc ++ pre.filter (fun c => c ≠ CR), post) := by
  induction pre with
  | nil =>
    intro acc
    have e : LF ≠ Char.ofNat 0x0d := by decide
    simp only [List.nil_append, readRxLoop, if_neg e, List.filter_nil, List.append_nil]
    rfl
  | cons c rest ih =>
    intro acc
    have hc : c ≠ LF := fun e => h (by simp [e])
    have hr : LF ∉ rest := fun e => h (by simp [e])
    simp only [List.cons_append, readRxLoop, List.append_eq]
    by_cases hcr : c = Char.ofNat 0x0d
    · rw [if_pos hcr, ih hr]
      have : c = CR := hcr
      simp [this]
    · have hlf : ¬ c = Char.ofNat 0x0a := hc
      rw [if_neg hcr, if_neg hlf, ih hr]
      have : c ≠ CR := hcr
      simp [this]

theorem readRx_line (w : Host) (pre post : List Char) (h : LF ∉ pre)
    (hw : w.rx = pre ++ LF :: post) :
    readRx w = some (pre.filter (fun c => c ≠ CR), { w with rx := post }) := by
  unfold readRx
  rw [hw, readRxLoop_line pre post h]
  simp

/-- C8: when the incoming byte stream contains a line feed, i.e. it is `pre ++ LF :: post`
with no line feed in `pre`, `readRx` returns exactly `pre` with every carriage return
removed; the result contains neither `0x0D` nor `0x0A`, the line feed is consumed and not
included, and `post` is left unread. -/
theorem readRx_returns_first_line (w : Host) (pre post : List Char) (h : LF ∉ pre)
    (hw : w.rx = pre ++ LF :: post) :
    readRx w = some (pre.filter (fun c => c ≠ CR), { w with rx := post }) ∧
    CR ∉ pre.filter (fun c => c ≠ CR) ∧ LF ∉ pre.filter (fun c => c ≠ CR) := by
  refine ⟨readRx_line w pre post h hw, ?_, ?_⟩
  · simp [List.mem_filter]
  · intro hm
    exact h (List.mem_filter.mp hm).1

/-- C8 on the bytes `4F 4B 0D 0A`: the line is `OK` and nothing is left unread. -/
theorem readRx_returns_first_line_witness :
    readRx (Host.start [Char.ofNat 0x4f, Char.ofNat 0x4b, Char.ofNat 0x0d, Char.ofNat 0x0a] [])
        = some (['O', 'K'], Host.start [] []) ∧
    CR ∉ ['O', 'K'] ∧ LF ∉ ['O', 'K'] :=
  readRx_returns_first_line
    (Host.start [Char.ofNat 0x4f, Char.ofNat 0x4b, Char.ofNat 0x0d, Char.ofNat 0x0a] [])
    [Char.ofNat 0x4f, Char.ofNat 0x4b, Char.ofNat 0x0d] [] (by decide) rfl

/-! ### parseRx: single steps -/

theorem shl4_or (a v : Nat) (hv : v < 16) : (a <<< 4) ||| v = 16 * a + v := by
  have h := @Nat.mul_add_lt_is_or 4 v (by simpa using hv) a
  rw [Nat.shiftLeft_eq, Nat.mul_comm a (2 ^ 4), ← h]

theorem isLowerHex_ne_colon {c : Char} (h : isLowerHex c) : c ≠ ':' := by
  intro e; subst e; revert h; decide

theorem isLowerHex_ne_comma {c : Char} (h : isLowerHex c) : c ≠ ',' := by
  intro e; subst e; revert h; decide

theorem isLowerHex_ne_H {c : Char} (h : isLowerHex c) : c ≠ 'H' := by
  intro e; subst e; revert h; decide

theorem parseStep_header_colon (idx tmpVal addr : Nat) (d : List Nat) (ckSum : Nat)
    (cerr : List String) :
    parseStep ':' ⟨PState.HEADER, idx, tmpVal, addr, d, ckSum, cerr⟩
      = (true, ⟨PState.DATA, idx, tmpVal, addr, d, ckSum, cerr⟩) := by
  simp [parseStep]

theorem parseStep_header_H (idx tmpVal addr : Nat) (d : List Nat) (ckSum : Nat)
    (cerr : List String) :
    parseStep 'H' ⟨PState.HEADER, idx, tmpVal, addr, d, ckSum, cerr⟩
      = (true, ⟨PState.HEADER, idx, tmpVal, addr, d, ckSum, cerr⟩) := by
  simp [parseStep]

theorem parseStep_header_hex {c : Char} (hc : isLowerHex c) (idx tmpVal addr : Nat)
    (d : List Nat) (ckSum : Nat) (cerr : List String) :
    parseStep c ⟨PState.HEADER, idx, tmpVal, addr, d, ckSum, cerr⟩
      = (true, ⟨PState.HEADER, idx, tmpVal, (16 * addr + hexDigitValue c) % 2 ^ 32, d, ckSum,
          cerr⟩) := by
  have hv := hexDigitValue_le hc
  simp [parseStep, isLowerHex_ne_colon hc, isLowerHex_ne_H hc, hexToInt_of_isLowerHex hc,
    shl4_or addr (hexDigitValue c) (by omega)]

theorem parseStep_data_comma (idx tmpVal addr : Nat) (d : List Nat) (ckSum : Nat)
    (cerr : List String) :
    parseStep ',' ⟨PState.DATA, idx, tmpVal, addr, d, ckSum, cerr⟩
      = (true, ⟨PState.CKSUM, idx, tmpVal, addr, d, ckSum, cerr⟩) := by
  simp [parseStep]

theorem parseStep_data_hi {c : Char} (hc : isLowerHex c) (addr : Nat)
    (d : List Nat) (ckSum : Nat) (cerr : List String) :
    parseStep c ⟨PState.DATA, 0, 0, addr, d, ckSum, cerr⟩
      = (true, ⟨PState.DATA, 1, hexDigitValue c, addr, d, ckSum, cerr⟩) := by
  have hv := hexDigitValue_le hc
  have e : hexDigitValue c % 256 = hexDigitValue c := Nat.mod_eq_of_lt (by omega)
  simp [parseStep, isLowerHex_ne_comma hc, hexToInt_of_isLowerHex hc, e]

theorem parseStep_data_lo {c : Char} (hc : isLowerHex c) (hi addr : Nat) (hhi : hi ≤ 15)
    (d : List Nat) (ckSum : Nat) (cerr : List String) :
    parseStep c ⟨PState.DATA, 1, hi, addr, d, ckSum, cerr⟩
      = (true, ⟨PState.DATA, 0, 0, addr, d ++ [16 * hi + hexDigitValue c], ckSum, cerr⟩) := by
  have hv := hexDigitValue_le hc
  have e : (16 * hi + hexDigitValue c) % 256 = 16 * hi + hexDigitValue c :=
    Nat.mod_eq_of_lt (by omega)
  simp [parseStep, isLowerHex_ne_comma hc, hexToInt_of_isLowerHex hc,
    shl4_or hi (hexDigitValue c) (by omega), e]

theorem parseStep_cksum_hi {c : Char} (hc : isLowerHex c) (addr : Nat)
    (d : List Nat) (ckSum : Nat) (cerr : List String) :
    parseStep c ⟨PState.CKSUM, 0, 0, addr, d, ckSum, cerr⟩
      = (true, ⟨PState.CKSUM, 1, hexDigitValue c, addr, d, ckSum, cerr⟩) := by
  have hv := hexDigitValue_le hc
  have e : hexDigitValue c % 256 = hexDigitValue c := Nat.mod_eq_of_lt (by omega)
  simp [parseStep, hexToInt_of_isLowerHex hc, e]

theorem parseStep_cksum_lo {c : Char} (hc : isLowerHex c) (hi addr : Nat) (hhi : hi ≤ 15)
    (d : List Nat) (ckSum : Nat) (cerr : List String) :
    parseStep c ⟨PState.CKSUM, 1, hi, addr, d, ckSum, cerr⟩
      = (true, ⟨PState.CKSUM, 2, 16 * hi + hexDigitValue c, addr, d,
          16 * hi + hexDigitValue c, cerr⟩) := by
  have hv := hexDigitValue_le hc
  have e : (16 * hi + hexDigitValue c) % 256 = 16 * hi + hexDigitValue c :=
    Nat.mod_eq_of_lt (by omega)
  simp [parseStep, hexToInt_of_isLowerHex hc, shl4_or hi (hexDigitValue c) (by omega), e]

theorem parseLoop_cons_of_step {c : Char} {cs : List Char} {s t : PVars}
    (h : parseStep c s = (true, t)) : parseLoop (c :: cs) s = parseLoop cs t := by
  simp [parseLoop, h]

/-! ### parseRx: rejected characters -/

theorem parseStep_true {c : Char} {s : PVars} (hs : s.state ≠ PState.NA)
    (h : (parseStep c s).1 = true) :
    allowedChar c ∧ (parseStep c s).2.state ≠ PState.NA := by
  obtain ⟨st, idx, tmpVal, addr, d, ckSum, cerr⟩ := s
  by_cases hc : isLowerHex c
  · refine ⟨Or.inl hc, ?_⟩
    cases st
    · exact absurd rfl hs
    · rw [parseStep_header_hex hc]; simp
    · simp only [parseStep, isLowerHex_ne_comma hc, hexToInt_of_isLowerHex hc, if_false]
      split_ifs <;> simp
    · simp only [parseStep, hexToInt_of_isLowerHex hc]
      split_ifs <;> simp
  · cases st
    · exact absurd rfl hs
    · by_cases h1 : c = ':'
      · subst h1
        rw [parseStep_header_colon]
        exact ⟨Or.inr (Or.inl rfl), by simp⟩
      · by_cases h2 : c = 'H'
        · subst h2
          rw [parseStep_header_H]
          exact ⟨Or.inr (Or.inr (Or.inr rfl)), by simp⟩
        · simp [parseStep, h1, h2, hexToInt_of_not_isLowerHex hc] at h
    · by_cases h1 : c = ','
      · subst h1
        rw [parseStep_data_comma]
        exact ⟨Or.inr (Or.inr (Or.inl rfl)), by simp⟩
      · simp [parseStep, h1, hexToInt_of_not_isLowerHex hc] at h
    · simp [parseStep, hexToInt_of_not_isLowerHex hc] at h

theorem parseLoop_true_allowed (l : List Char) :
    ∀ s : PVars, s.state ≠ PState.NA → (parseLoop l s).1 = true → ∀ c ∈ l, allowedChar c := by
  induction l with
  | nil => intro s _ _ c hc; cases hc
  | cons x xs ih =>
    intro s hs hok c hc
    rcases hstep : parseStep x s with ⟨b, t⟩
    cases b
    · simp [parseLoop, hstep] at hok
    · have hx := parseStep_true hs (by rw [hstep])
      rw [hstep] at hx
      rw [parseLoop_cons_of_step hstep] at hok
      rcases List.mem_cons.mp hc with e | e
      · rw [e]; exact hx.1
      · exact ih t hx.2 hok c e

theorem not_allowedChar_upper {c : Char} (h : 'A' ≤ c ∧ c ≤ 'F') : ¬ allowedChar c := by
  rintro (h1 | h1 | h1 | h1)
  · exact not_isLowerHex_upper h h1
  · subst h1; revert h; decide
  · subst h1; revert h; decide
  · subst h1; revert h; decide

/-- C7: a line that contains, at any position, an uppercase hex letter `'A'..'F'` or any
character outside `[0-9a-f:,H]` is rejected by `parseRx` (it returns `false`), whatever the
caller's variables hold on entry. -/
theorem parseRx_rejects_foreign_char (inD : List Char) (addr : Nat) (d : List Nat)
    (ckSum : Nat) (h : ∃ c ∈ inD, ('A' ≤ c ∧ c ≤ 'F') ∨ ¬ allowedChar c) :
    (parseRx inD addr d ckSum).1 = false := by
  obtain ⟨c, hc, hbad⟩ := h
  have hbad2 : ¬ allowedChar c := by
    rcases hbad with hu | hn
    · exact not_allowedChar_upper hu
    · exact hn
  cases hres : (parseRx inD addr d ckSum).1
  · rfl
  · exact absurd (parseLoop_true_allowed inD _ (by simp) hres c hc) hbad2

/-- C7 on the lines `0010:DE,00` (uppercase hex) and `0010:de 00` (a blank). -/
theorem parseRx_rejects_foreign_char_witness :
    (parseRx ['0', '0', '1', '0', ':', 'D', 'E', ',', '0', '0'] 0 [] 0).1 = false ∧
    (parseRx ['0', '0', '1', '0', ':', 'd', 'e', ' ', '0', '0'] 0 [] 0).1 = false :=
  ⟨parseRx_rejects_foreign_char _ 0 [] 0 ⟨'D', by decide, Or.inl (by decide)⟩,
   parseRx_rejects_foreign_char _ 0 [] 0 ⟨' ', by decide, Or.inr (by decide)⟩⟩

/-! ### parseRx: the three fields of a record line -/

theorem skipMarker_cons_hex {x : Char} (xs : List Char) (h : x ≠ 'H') :
    skipMarker (x :: xs) = x :: skipMarker xs := by
  simp [skipMarker, h]

theorem skipMarker_cons_H (xs : List Char) : skipMarker ('H' :: xs) = skipMarker xs := by
  simp [skipMarker]

theorem parseLoop_header (header rest : List Char) :
    ∀ addr : Nat, (∀ c ∈ header, isLowerHex c ∨ c = 'H') →
      (addr + 1) * 16 ^ (skipMarker header).length ≤ 2 ^ 32 →
      ∀ (idx tmpVal : Nat) (d : List Nat) (ckSum : Nat) (cerr : List String),
        parseLoop (header ++ rest) ⟨PState.HEADER, idx, tmpVal, addr, d, ckSum, cerr⟩
          = parseLoop rest ⟨PState.HEADER, idx, tmpVal,
              (skipMarker header).foldl (fun a c => 16 * a + hexDigitValue c) addr,
              d, ckSum, cerr⟩ := by
  induction header with
  | nil => intro addr _ _ idx tmpVal d ckSum cerr; rfl
  | cons x xs ih =>
    intro addr hh hb idx tmpVal d ckSum cerr
    have hxs : ∀ c ∈ xs, isLowerHex c ∨ c = 'H' := fun c hc => hh c (List.mem_cons_of_mem x hc)
    rcases hh x (List.mem_cons_self x xs) with hx | hx
    · have hne : x ≠ 'H' := isLowerHex_ne_H hx
      have hv := hexDigitValue_le hx
      rw [skipMarker_cons_hex xs hne] at hb ⊢
      rw [List.length_cons, pow_succ, ← Nat.mul_assoc] at hb
      have hmul : (16 * addr + hexDigitValue x + 1) * 16 ^ (skipMarker xs).length ≤ 2 ^ 32 := by
        refine le_trans ?_ hb
        rw [Nat.mul_right_comm]
        apply Nat.mul_le_mul_right
        omega
      have hlt : 16 * addr + hexDigitValue x < 2 ^ 32 := by
        have hp : 1 ≤ 16 ^ (skipMarker xs).length := Nat.one_le_pow _ _ (by norm_num)
        calc 16 * addr + hexDigitValue x
            < (16 * addr + hexDigitValue x + 1) * 1 := by omega
          _ ≤ (16 * addr + hexDigitValue x + 1) * 16 ^ (skipMarker xs).length :=
              Nat.mul_le_mul_left _ hp
          _ ≤ 2 ^ 32 := hmul
      rw [List.cons_append, parseLoop_cons_of_step (parseStep_header_hex hx _ _ _ _ _ _),
        Nat.mod_eq_of_lt hlt, List.foldl_cons]
      exact ih (16 * addr + hexDigitValue x) hxs hmul idx tmpVal d ckSum cerr
    · subst hx
      rw [skipMarker_cons_H] at hb ⊢
      rw [List.cons_append, parseLoop_cons_of_step (parseStep_header_H _ _ _ _ _ _)]
      exact ih addr hxs hb idx tmpVal d ckSum cerr

theorem parseLoop_data (n : Nat) :
    ∀ data : List Char, data.length = 2 * n → (∀ c ∈ data, isLowerHex c) →
      ∀ (rest : List Char) (addr : Nat) (d : List Nat) (ckSum : Nat) (cerr : List String),
        parseLoop (data ++ rest) ⟨PState.DATA, 0, 0, addr, d, ckSum, cerr⟩
          = parseLoop rest ⟨PState.DATA, 0, 0, addr, d ++ pairBytes data, ckSum, cerr⟩ := by
  induction n with
  | zero =>
    intro data hl _ rest addr d ckSum cerr
    have : data = [] := List.length_eq_zero.mp (by simpa using hl)
    subst this
    simp [pairBytes]
  | succ m ih =>
    intro data hl hh rest addr d ckSum cerr
    match data, hl, hh with
    | c1 :: c2 :: tl, hl, hh =>
      have h1 : isLowerHex c1 := hh c1 (by simp)
      have h2 : isLowerHex c2 := hh c2 (by simp)
      have htl : ∀ c ∈ tl, isLowerHex c := fun c hc => hh c (by simp [hc])
      have hlen : tl.length = 2 * m := by
        simp only [List.length_cons] at hl
        omega
      rw [List.cons_append, List.cons_append,
        parseLoop_cons_of_step (parseStep_data_hi h1 _ _ _ _),
        parseLoop_cons_of_step (parseStep_data_lo h2 _ _ (hexDigitValue_le h1) _ _ _),
        ih tl hlen htl]
      simp [pairBytes]
    | [], hl, _ => simp at hl
    | [_], hl, _ =>
      simp only [List.length_cons, List.length_nil] at hl
      omega

theorem parseLoop_cksum {c1 c2 : Char} (h1 : isLowerHex c1) (h2 : isLowerHex c2)
    (addr : Nat) (d : List Nat) (ckSum : Nat) (cerr : List String) :
    parseLoop [c1, c2] ⟨PState.CKSUM, 0, 0, addr, d, ckSum, cerr⟩
      = (true, ⟨PState.CKSUM, 2, 16 * hexDigitValue c1 + hexDigitValue c2, addr, d,
          16 * hexDigitValue c1 + hexDigitValue c2, cerr⟩) := by
  rw [parseLoop_cons_of_step (parseStep_cksum_hi h1 _ _ _ _),
    parseLoop_cons_of_step (parseStep_cksum_lo h2 _ _ (hexDigitValue_le h1) _ _ _)]
  rfl

/-- The result of `parseRx` on a complete record line `header:data,c1c2`. -/
theorem parseRx_record (header data : List Char) (c1 c2 : Char)
    (hh : ∀ c ∈ header, isLowerHex c ∨ c = 'H')
    (hn : (skipMarker header).length ≤ 8)
    (hd : ∀ c ∈ data, isLowerHex c) (he : data.length % 2 = 0)
    (h1 : isLowerHex c1) (h2 : isLowerHex c2) :
    parseRx (header ++ ':' :: (data ++ ',' :: [c1, c2])) 0 [] 0
      = (true, ⟨PState.CKSUM, 2, 16 * hexDigitValue c1 + hexDigitValue c2,
          hexValue (skipMarker header), pairBytes data,
          16 * hexDigitValue c1 + hexDigitValue c2, []⟩) := by
  have hb : (0 + 1) * 16 ^ (skipMarker header).length ≤ 2 ^ 32 := by
    have : 16 ^ (skipMarker header).length ≤ 16 ^ 8 :=
      Nat.pow_le_pow_right (by norm_num) hn
    norm_num at this ⊢
    exact this
  have hlen : data.length = 2 * (data.length / 2) := by omega
  unfold parseRx
  rw [parseLoop_header header _ 0 hh hb,
    parseLoop_cons_of_step (parseStep_header_colon _ _ _ _ _ _),
    parseLoop_data _ data hlen hd,
    parseLoop_cons_of_step (parseStep_data_comma _ _ _ _ _ _),
    parseLoop_cksum h1 h2]
  rfl

/-- C2: on a line `header:data,c1c2`, where `header` consists of hex digits `[0-9a-f]` and
`'H'` with at most 4 hex digits, `data` is an even-length string of hex digits and `c1`, `c2`
are hex digits, `parseRx` (entered with `addr = 0` and an empty vector) returns `true` with
the address equal to the base-16 value of the header's hex digits (every `'H'` skipped), the
payload equal to the bytes formed from consecutive digit pairs of `data` (high nibble first,
in order) and the checksum equal to `16 * c1 + c2`. -/
theorem parseRx_well_formed_line (header data : List Char) (c1 c2 : Char)
    (hh : ∀ c ∈ header, isLowerHex c ∨ c = 'H')
    (hn : (skipMarker header).length ≤ 4)
    (hd : ∀ c ∈ data, isLowerHex c) (he : data.length % 2 = 0)
    (h1 : isLowerHex c1) (h2 : isLowerHex c2) :
    (parseRx (header ++ ':' :: (data ++ ',' :: [c1, c2])) 0 [] 0).1 = true ∧
    (parseRx (header ++ ':' :: (data ++ ',' :: [c1, c2])) 0 [] 0).2.addr
      = hexValue (skipMarker header) ∧
    (parseRx (header ++ ':' :: (data ++ ',' :: [c1, c2])) 0 [] 0).2.d = pairBytes data ∧
    (parseRx (header ++ ':' :: (data ++ ',' :: [c1, c2])) 0 [] 0).2.ckSum
      = 16 * hexDigitValue c1 + hexDigitValue c2 := by
  rw [parseRx_record header data c1 c2 hh (by omega) hd he h1 h2]
  exact ⟨rfl, rfl, rfl, rfl⟩

/-- C2 on the line `0010:deadbeefcafebabe1122334455667788,3c`: address `0x0010`, the 16 bytes
`de ad be ef ca fe ba be 11 22 33 44 55 66 77 88`, checksum `0x3c`. -/
theorem parseRx_well_formed_line_witness :
    (parseRx "0010:deadbeefcafebabe1122334455667788,3c".toList 0 [] 0).1 = true ∧
    (parseRx "0010:deadbeefcafebabe1122334455667788,3c".toList 0 [] 0).2.addr = 0x0010 ∧
    (parseRx "0010:deadbeefcafebabe1122334455667788,3c".toList 0 [] 0).2.d
      = [0xde, 0xad, 0xbe, 0xef, 0xca, 0xfe, 0xba, 0xbe,
         0x11, 0x22, 0x33, 0x44, 0x55, 0x66, 0x77, 0x88] ∧
    (parseRx "0010:deadbeefcafebabe1122334455667788,3c".toList 0 [] 0).2.ckSum = 0x3c :=
  parseRx_well_formed_line "0010".toList "deadbeefcafebabe1122334455667788".toList '3' 'c'
    (by decide) (by decide) (by decide) (by decide) (by decide) (by decide)

/-! ### printf conversions and the write command -/

theorem digitChar_eq_lowerHexDigit {v : Nat} (h : v < 16) : Nat.digitChar v = lowerHexDigit v := by
  interval_cases v <;> rfl

theorem toDigitsCore_small (f n : Nat) (ds : List Char) (h : n < 16) :
    Nat.toDigitsCore 16 (f + 1) n ds = lowerHexDigit n :: ds := by
  have e1 : n / 16 = 0 := by omega
  have e2 : n % 16 = n := by omega
  simp [Nat.toDigitsCore, e1, e2, digitChar_eq_lowerHexDigit h]

theorem toDigitsCore_step (f n : Nat) (ds : List Char) (h : 16 ≤ n) :
    Nat.toDigitsCore 16 (f + 1) n ds
      = Nat.toDigitsCore 16 f (n / 16) (lowerHexDigit (n % 16) :: ds) := by
  have e1 : n / 16 ≠ 0 := by omega
  have e2 : n % 16 < 16 := by omega
  simp [Nat.toDigitsCore, e1, digitChar_eq_lowerHexDigit e2]

theorem printfHex_two {n : Nat} (h : n < 256) : printfHex 2 n = hex2 n := by
  unfold printfHex hex2 Nat.toDigits
  by_cases h1 : n < 16
  · have e1 : n / 16 = 0 := by omega
    have e2 : n % 16 = n := by omega
    rw [toDigitsCore_small n n [] h1, e1, e2]
    rfl
  · obtain ⟨k, hk⟩ : ∃ k, n + 1 = k + 2 := ⟨n - 1, by omega⟩
    rw [hk, toDigitsCore_step _ n [] (by omega), toDigitsCore_small _ _ _ (by omega)]
    rfl

theorem printfHex_four {n : Nat} (h : n < 65536) : printfHex 4 n = hex4 n := by
  unfold printfHex hex4 Nat.toDigits
  by_cases h1 : n < 16
  · have e1 : n / 16 % 16 = 0 := by omega
    have e2 : n % 16 = n := by omega
    have e3 : n / 256 % 16 = 0 := by omega
    have e4 : n / 4096 = 0 := by omega
    rw [toDigitsCore_small n n [] h1, e1, e2, e3, e4]
    rfl
  · by_cases h2 : n < 256
    · obtain ⟨k, hk⟩ : ∃ k, n + 1 = k + 2 := ⟨n - 1, by omega⟩
      have e3 : n / 256 % 16 = 0 := by omega
      have e4 : n / 4096 = 0 := by omega
      have e5 : n / 16 % 16 = n / 16 := by omega
      rw [hk, toDigitsCore_step _ n [] (by omega), toDigitsCore_small _ _ _ (by omega), e3, e4,
        e5]
      rfl
    · by_cases h3 : n < 4096
      · obtain ⟨k, hk⟩ : ∃ k, n + 1 = k + 3 := ⟨n - 2, by omega⟩
        have e4 : n / 4096 = 0 := by omega
        have e5 : n / 16 / 16 = n / 256 % 16 := by omega
        rw [hk, toDigitsCore_step _ n [] (by omega), toDigitsCore_step _ _ _ (by omega),
          toDigitsCore_small _ _ _ (by omega), e4, e5]
        rfl
      · obtain ⟨k, hk⟩ : ∃ k, n + 1 = k + 4 := ⟨n - 3, by omega⟩
        have e4 : n / 16 / 16 / 16 = n / 4096 := by omega
        have e5 : n / 16 / 16 % 16 = n / 256 % 16 := by omega
        rw [hk, toDigitsCore_step _ n [] (by omega), toDigitsCore_step _ _ _ (by omega),
          toDigitsCore_step _ _ _ (by omega), toDigitsCore_small _ _ _ (by omega), e4, e5]
        rfl
theorem map_printfHex_two (data : List Nat) (hb : ∀ b ∈ data, b < 256) :
    data.map (printfHex 2) = data.map hex2 := by
  apply List.map_congr_left
  intro b hbm
  exact printfHex_two (hb b hbm)

theorem writeStr_eq_writeCommand (addr : Nat) (data : List Nat) (ha : addr < 65536)
    (hb : ∀ b ∈ data, b < 256) : writeStr addr data = writeCommand addr data := by
  unfold writeStr writeCommand
  simp only [writeLoop_fst, writeLoop_snd]
  rw [printfHex_four ha, map_printfHex_two data hb, printfHex_two (and_255_lt _)]
  simp [xorFold]

theorem length_flatten_hex2 (data : List Nat) : ((data.map hex2).flatten).length = 2 * data.length := by
  induction data with
  | nil => rfl
  | cons b rest ih =>
    simp only [List.map_cons, List.flatten_cons, List.length_append, ih, List.length_cons]
    simp [hex2]
    omega

theorem length_writeCommand (addr : Nat) (data : List Nat) :
    (writeCommand addr data).length = 10 + 2 * data.length := by
  unfold writeCommand
  simp only [List.length_cons, List.length_append, length_flatten_hex2]
  simp [hex4, hex2]
  omega

/-! ### writeEprom -/

theorem ifs_read_full (data more : List Nat) (hlen : data.length = 16) :
    IfStream.read ⟨data ++ more, false⟩ REC_SIZE = (some data, ⟨more, false⟩) := by
  have h1 : REC_SIZE ≤ (data ++ more).length := by
    simp [REC_SIZE, hlen]
  have h2 : (data ++ more).take REC_SIZE = data := by
    simp [REC_SIZE, ← hlen]
  have h3 : (data ++ more).drop REC_SIZE = more := by
    simp [REC_SIZE, ← hlen]
  simp only [IfStream.read, h1, h2, h3]
  simp

theorem writeEprom_full (addr : Nat) (data more : List Nat) (line post : List Char)
    (tx : List (List Char)) (ofs : List Nat) (cerr : List String)
    (hlen : data.length = 16) (hline : LF ∉ line) :
    ∃ (b : Bool) (cerr2 : List String),
      writeEprom addr ⟨line ++ LF :: post, tx, ⟨data ++ more, false⟩, ofs, cerr⟩
        = some (b, ⟨post, tx ++ [writeStr addr data], ⟨more, false⟩, ofs, cerr2⟩) := by
  unfold writeEprom
  simp only [ifs_read_full data more hlen, sendData]
  rw [readRx_line _ line post hline rfl]
  simp only
  split_ifs
  · exact ⟨false, _, rfl⟩
  · exact ⟨true, _, rfl⟩

theorem writeEprom_short (addr : Nat) (rx : List Char) (tx : List (List Char))
    (rest : List Nat) (ofs : List Nat) (cerr : List String) (h : rest.length < 16) :
    writeEprom addr ⟨rx, tx, ⟨rest, false⟩, ofs, cerr⟩
      = some (true, ⟨rx, tx, ⟨[], true⟩, ofs, cerr⟩) := by
  have h1 : ¬ REC_SIZE ≤ rest.length := by
    simp [REC_SIZE]; omega
  simp [writeEprom, IfStream.read, h1]

theorem writeEprom_bad (addr : Nat) (rx : List Char) (tx : List (List Char))
    (rest : List Nat) (ofs : List Nat) (cerr : List String) :
    writeEprom addr ⟨rx, tx, ⟨rest, true⟩, ofs, cerr⟩
      = some (true, ⟨rx, tx, ⟨rest, true⟩, ofs, cerr⟩) := by
  simp [writeEprom, IfStream.read]

/-- C4: for every address in `0..0xFFFF` and every 16-byte payload that `writeEprom` reads
from the input file, the line it sends is exactly `'W'`, the address as 4 zero-padded
lowercase hex digits, `':'`, the 2 zero-padded lowercase hex digits of each payload byte in
order, `','`, the 2 lowercase hex digits of the XOR of the payload bytes masked to 8 bits,
and `'\n'`: 42 characters in total. -/
theorem writeEprom_sends_write_command (addr : Nat) (data more : List Nat)
    (line post : List Char) (tx : List (List Char)) (ofs : List Nat) (cerr : List String)
    (ha : addr ≤ 0xFFFF) (hlen : data.length = 16) (hb : ∀ b ∈ data, b < 256)
    (hline : LF ∉ line) :
    ∃ (b : Bool) (w : Host),
      writeEprom addr ⟨line ++ LF :: post, tx, ⟨data ++ more, false⟩, ofs, cerr⟩ = some (b, w) ∧
      w.tx = tx ++ ['W' :: (hex4 addr ++ ':' :: ((data.map hex2).flatten
        ++ ',' :: (hex2 (xorFold data &&& 0xff) ++ [Char.ofNat 0x0a])))] ∧
      ('W' :: (hex4 addr ++ ':' :: ((data.map hex2).flatten
        ++ ',' :: (hex2 (xorFold data &&& 0xff) ++ [Char.ofNat 0x0a])))).length = 42 := by
  obtain ⟨b, cerr2, h⟩ := writeEprom_full addr data more line post tx ofs cerr hlen hline
  refine ⟨b, _, h, ?_, ?_⟩
  · show tx ++ [writeStr addr data] = tx ++ [writeCommand addr data]
    rw [writeStr_eq_writeCommand addr data (by omega) hb]
  · have := length_writeCommand addr data
    rw [hlen] at this
    exact this

/-- C4 at address `0x0010` with the payload `de ad be ef ca fe ba be 11 22 33 44 55 66 77 88`
and the device answering `OK`: the line sent is
`W0010:deadbeefcafebabe1122334455667788,9a` followed by a line feed. -/
theorem writeEprom_sends_write_command_witness :
    ∃ (b : Bool) (w : Host),
      writeEprom 0x0010 ⟨['O', 'K'] ++ LF :: [], [],
        ⟨[0xde, 0xad, 0xbe, 0xef, 0xca, 0xfe, 0xba, 0xbe,
          0x11, 0x22, 0x33, 0x44, 0x55, 0x66, 0x77, 0x88] ++ [], false⟩, [], []⟩ = some (b, w) ∧
      w.tx = [] ++ ["W0010:deadbeefcafebabe1122334455667788,9a\n".toList] ∧
      "W0010:deadbeefcafebabe1122334455667788,9a\n".toList.length = 42 :=
  writeEprom_sends_write_command 0x0010
    [0xde, 0xad, 0xbe, 0xef, 0xca, 0xfe, 0xba, 0xbe, 0x11, 0x22, 0x33, 0x44, 0x55, 0x66, 0x77,
      0x88] [] ['O', 'K'] [] [] [] [] (by decide) (by decide) (by decide) (by decide)

/-! ### The write command read back by parseRx -/

theorem isLowerHex_lowerHexDigit {v : Nat} (h : v < 16) : isLowerHex (lowerHexDigit v) := by
  interval_cases v <;> decide

theorem hexDigitValue_lowerHexDigit {v : Nat} (h : v < 16) :
    hexDigitValue (lowerHexDigit v) = v := by
  interval_cases v <;> decide

theorem skipMarker_of_hex (l : List Char) (h : ∀ c ∈ l, isLowerHex c) : skipMarker l = l := by
  unfold skipMarker
  apply List.filter_eq_self.mpr
  intro c hc
  simpa using isLowerHex_ne_H (h c hc)

theorem isLowerHex_hex4 (a : Nat) (h : a < 65536) : ∀ c ∈ hex4 a, isLowerHex c := by
  intro c hc
  simp only [hex4, List.mem_cons, List.mem_singleton, List.not_mem_nil, or_false] at hc
  rcases hc with e | e | e | e <;> rw [e] <;> apply isLowerHex_lowerHexDigit <;> omega

theorem hexValue_hex4 (a : Nat) (h : a < 65536) : hexValue (hex4 a) = a := by
  have h1 : a / 4096 < 16 := by omega
  have h2 : a / 256 % 16 < 16 := by omega
  have h3 : a / 16 % 16 < 16 := by omega
  have h4 : a % 16 < 16 := by omega
  simp only [hexValue, hex4, List.foldl_cons, List.foldl_nil, hexDigitValue_lowerHexDigit h1,
    hexDigitValue_lowerHexDigit h2, hexDigitValue_lowerHexDigit h3,
    hexDigitValue_lowerHexDigit h4]
  omega

theorem isLowerHex_flatten_hex2 (data : List Nat) (hb : ∀ b ∈ data, b < 256) :
    ∀ c ∈ (data.map hex2).flatten, isLowerHex c := by
  intro c hc
  simp only [List.mem_flatten, List.mem_map] at hc
  obtain ⟨l, ⟨b, hbm, rfl⟩, hcl⟩ := hc
  have := hb b hbm
  simp only [hex2, List.mem_cons, List.mem_singleton, List.not_mem_nil, or_false] at hcl
  rcases hcl with e | e <;> rw [e] <;> apply isLowerHex_lowerHexDigit <;> omega

theorem pairBytes_flatten_hex2 (data : List Nat) (hb : ∀ b ∈ data, b < 256) :
    pairBytes (data.map hex2).flatten = data := by
  induction data with
  | nil => rfl
  | cons b rest ih =>
    have hb0 : b < 256 := hb b (by simp)
    have h1 : b / 16 < 16 := by omega
    have h2 : b % 16 < 16 := by omega
    have hrest : ∀ x ∈ rest, x < 256 := fun x hx => hb x (by simp [hx])
    simp only [List.map_cons, List.flatten_cons, hex2, List.cons_append, List.nil_append,
      pairBytes, hexDigitValue_lowerHexDigit h1, hexDigitValue_lowerHexDigit h2, List.append_eq]
    rw [ih hrest]
    congr 1
    omega

theorem xorFold_lt (data : List Nat) (hb : ∀ b ∈ data, b < 256) : xorFold data < 256 := by
  have key : ∀ (l : List Nat) (a : Nat), a < 2 ^ 8 → (∀ b ∈ l, b < 256) →
      l.foldl (fun x y => x ^^^ y) a < 2 ^ 8 := by
    intro l
    induction l with
    | nil => intro a ha _; exact ha
    | cons b rest ih =>
      intro a ha hl
      simp only [List.foldl_cons]
      apply ih
      · exact Nat.xor_lt_two_pow ha (hl b (by simp))
      · exact fun x hx => hl x (by simp [hx])
  exact key data 0 (by norm_num) hb

theorem and_255_of_lt {n : Nat} (h : n < 256) : n &&& 0xff = n := by
  have := Nat.and_pow_two_sub_one_eq_mod n 8
  norm_num at this
  rw [this]
  exact Nat.mod_eq_of_lt h

theorem writeCommand_strip (addr : Nat) (data : List Nat) :
    ((writeCommand addr data).drop 1).dropLast
      = hex4 addr ++ ':' :: ((data.map hex2).flatten ++ ',' ::
          [lowerHexDigit ((xorFold data &&& 0xff) / 16),
           lowerHexDigit ((xorFold data &&& 0xff) % 16)]) := by
  have e : writeCommand addr data
      = 'W' :: ((hex4 addr ++ ':' :: ((data.map hex2).flatten ++ ',' ::
          [lowerHexDigit ((xorFold data &&& 0xff) / 16),
           lowerHexDigit ((xorFold data &&& 0xff) % 16)])) ++ [Char.ofNat 0x0a]) := by
    simp [writeCommand, hex2]
  rw [e, List.drop_one, List.tail_cons, List.dropLast_concat]

/-- What `parseRx` returns on the line `writeEprom` builds for `addr` and `data`, once the
leading `'W'` and the trailing line feed are taken off. -/
theorem parseRx_stripped_writeStr (addr : Nat) (data : List Nat) (ha : addr ≤ 0xFFFF)
    (hb : ∀ b ∈ data, b < 256) :
    parseRx ((writeStr addr data).drop 1).dropLast 0 [] 0
      = (true, ⟨PState.CKSUM, 2, xorFold data &&& 0xff, addr, data, xorFold data &&& 0xff,
          []⟩) := by
  have ha2 : addr < 65536 := by omega
  have hck := and_255_lt (xorFold data)
  have h1 : (xorFold data &&& 0xff) / 16 < 16 := by omega
  have h2 : (xorFold data &&& 0xff) % 16 < 16 := by omega
  have hhex := isLowerHex_hex4 addr ha2
  have hlen : ((data.map hex2).flatten).length % 2 = 0 := by
    rw [length_flatten_hex2]; omega
  rw [writeStr_eq_writeCommand addr data ha2 hb, writeCommand_strip,
    parseRx_record (hex4 addr) _ _ _ (fun c hc => Or.inl (hhex c hc))
      (by rw [skipMarker_of_hex _ hhex]; simp [hex4])
      (isLowerHex_flatten_hex2 data hb) hlen
      (isLowerHex_lowerHexDigit h1) (isLowerHex_lowerHexDigit h2),
    skipMarker_of_hex _ hhex, hexValue_hex4 addr ha2, pairBytes_flatten_hex2 data hb,
    hexDigitValue_lowerHexDigit h1, hexDigitValue_lowerHexDigit h2]
  have e : 16 * ((xorFold data &&& 0xff) / 16) + (xorFold data &&& 0xff) % 16
      = xorFold data &&& 0xff := by omega
  rw [e]

/-- C1 as stated fails: the line `writeEprom` builds for address `0x0010` and the payload
`de ad be ef ca fe ba be 11 22 33 44 55 66 77 88`, namely
`W0010:deadbeefcafebabe1122334455667788,9a` with its line feed, is rejected by `parseRx` at
its first character `'W'`, and no payload byte is returned. -/
theorem parseRx_rejects_write_command :
    writeStr 0x0010 [0xde, 0xad, 0xbe, 0xef, 0xca, 0xfe, 0xba, 0xbe,
        0x11, 0x22, 0x33, 0x44, 0x55, 0x66, 0x77, 0x88]
      = "W0010:deadbeefcafebabe1122334455667788,9a\n".toList ∧
    (parseRx (writeStr 0x0010 [0xde, 0xad, 0xbe, 0xef, 0xca, 0xfe, 0xba, 0xbe,
        0x11, 0x22, 0x33, 0x44, 0x55, 0x66, 0x77, 0x88]) 0 [] 0).1 = false ∧
    (parseRx (writeStr 0x0010 [0xde, 0xad, 0xbe, 0xef, 0xca, 0xfe, 0xba, 0xbe,
        0x11, 0x22, 0x33, 0x44, 0x55, 0x66, 0x77, 0x88]) 0 [] 0).2.d = [] := by
  refine ⟨?_, ?_, ?_⟩
  · rw [writeStr_eq_writeCommand _ _ (by norm_num) (by decide)]
    rfl
  · rw [writeStr_eq_writeCommand _ _ (by norm_num) (by decide)]
    rfl
  · rw [writeStr_eq_writeCommand _ _ (by norm_num) (by decide)]
    rfl

/-- C1, amended: for every address in `0..0xFFFF` and every payload of 16 bytes, `parseRx`
(entered with `addr = 0` and an empty vector) applied to the line `writeEprom` builds, with
the leading `'W'` and the trailing line feed removed, succeeds and returns the same 16
payload bytes and a checksum equal to the XOR of those bytes. -/
theorem parseRx_write_command_payload (addr : Nat) (data : List Nat) (ha : addr ≤ 0xFFFF)
    (hlen : data.length = 16) (hb : ∀ b ∈ data, b < 256) :
    (parseRx ((writeStr addr data).drop 1).dropLast 0 [] 0).1 = true ∧
    (parseRx ((writeStr addr data).drop 1).dropLast 0 [] 0).2.d = data ∧
    (parseRx ((writeStr addr data).drop 1).dropLast 0 [] 0).2.d.length = 16 ∧
    (parseRx ((writeStr addr data).drop 1).dropLast 0 [] 0).2.ckSum = xorFold data := by
  rw [parseRx_stripped_writeStr addr data ha hb]
  exact ⟨rfl, rfl, hlen, and_255_of_lt (xorFold_lt data hb)⟩

/-- C1 amended, at address `0x0010` and the payload
`de ad be ef ca fe ba be 11 22 33 44 55 66 77 88`. -/
theorem parseRx_write_command_payload_witness :
    (parseRx "0010:deadbeefcafebabe1122334455667788,9a".toList 0 [] 0).1 = true ∧
    (parseRx "0010:deadbeefcafebabe1122334455667788,9a".toList 0 [] 0).2.d
      = [0xde, 0xad, 0xbe, 0xef, 0xca, 0xfe, 0xba, 0xbe,
         0x11, 0x22, 0x33, 0x44, 0x55, 0x66, 0x77, 0x88] ∧
    (parseRx "0010:deadbeefcafebabe1122334455667788,9a".toList 0 [] 0).2.ckSum = 0x9a := by
  have h := parseRx_write_command_payload 0x0010
    [0xde, 0xad, 0xbe, 0xef, 0xca, 0xfe, 0xba, 0xbe, 0x11, 0x22, 0x33, 0x44, 0x55, 0x66, 0x77,
      0x88] (by decide) (by decide) (by decide)
  have e : ((writeStr 0x0010 [0xde, 0xad, 0xbe, 0xef, 0xca, 0xfe, 0xba, 0xbe, 0x11, 0x22, 0x33,
      0x44, 0x55, 0x66, 0x77, 0x88]).drop 1).dropLast
      = "0010:deadbeefcafebabe1122334455667788,9a".toList := by
    rw [writeStr_eq_writeCommand _ _ (by norm_num) (by decide)]
    rfl
  rw [e] at h
  exact ⟨h.1, h.2.1, h.2.2.2⟩

/-! ### The write session -/

theorem forRecords_write_bad (m : Nat) :
    ∀ (a : Nat) (rx : List Char) (tx : List (List Char)) (rest ofs : List Nat)
      (cerr : List String),
      forRecords writeEprom m a ⟨rx, tx, ⟨rest, true⟩, ofs, cerr⟩
        = some ⟨rx, tx, ⟨rest, true⟩, ofs, cerr⟩ := by
  induction m with
  | zero => intro a rx tx rest ofs cerr; rfl
  | succ k ih =>
    intro a rx tx rest ofs cerr
    simp only [forRecords, writeEprom_bad]
    exact ih _ _ _ _ _ _

theorem respStream_cons (r : List Char) (rs : List (List Char)) (tail : List Char) :
    respStream (r :: rs) ++ tail = r ++ LF :: (respStream rs ++ tail) := by
  simp [respStream, LF]

theorem forRecords_write (m : Nat) :
    ∀ (a : Nat) (file : List Nat) (resps : List (List Char)) (tail : List Char)
      (tx : List (List Char)) (ofs : List Nat) (cerr : List String),
      (∀ l ∈ resps, LF ∉ l) → min m (file.length / 16) ≤ resps.length →
      ∃ w : Host,
        forRecords writeEprom m a ⟨respStream resps ++ tail, tx, ⟨file, false⟩, ofs, cerr⟩
          = some w ∧
        w.tx = tx ++ (List.range (min m (file.length / 16))).map
          (fun i => writeStr ((a + i) * REC_SIZE) (fileRecord file i)) := by
  induction m with
  | zero =>
    intro a file resps tail tx ofs cerr _ _
    exact ⟨_, rfl, by simp⟩
  | succ k ih =>
    intro a file resps tail tx ofs cerr hl hk
    by_cases hf : file.length < 16
    · have h0 : file.length / 16 = 0 := by omega
      refine ⟨⟨respStream resps ++ tail, tx, ⟨[], true⟩, ofs, cerr⟩, ?_, ?_⟩
      · simp only [forRecords, writeEprom_short _ _ _ _ _ _ hf]
        exact forRecords_write_bad k _ _ _ _ _ _
      · simp [h0]
    · have hlen : (file.take 16).length = 16 := by
        rw [List.length_take]; omega
      have hdrop : (file.drop 16).length = file.length - 16 := List.length_drop 16 file
      have hmin : min (k + 1) (file.length / 16) = min k ((file.drop 16).length / 16) + 1 := by
        rw [hdrop]; omega
      rw [hmin] at hk ⊢
      match resps, hl, hk with
      | [], _, hk => simp at hk
      | r :: rs, hl, hk =>
        have hr : LF ∉ r := hl r (by simp)
        have hrs : ∀ l ∈ rs, LF ∉ l := fun l hm => hl l (by simp [hm])
        obtain ⟨b, cerr2, hw⟩ := writeEprom_full (a * REC_SIZE) (file.take 16) (file.drop 16) r
          (respStream rs ++ tail) tx ofs cerr hlen hr
        rw [List.take_append_drop] at hw
        obtain ⟨w, hw1, hw2⟩ := ih (a + 1) (file.drop 16) rs tail
          (tx ++ [writeStr (a * REC_SIZE) (file.take 16)]) ofs cerr2 hrs
          (by simp only [List.length_cons] at hk; omega)
        refine ⟨w, ?_, ?_⟩
        · rw [respStream_cons]
          simp only [forRecords, hw]
          exact hw1
        · rw [hw2, List.range_succ_eq_map, List.map_cons, List.map_map, List.append_assoc]
          congr 1
          simp only [List.singleton_append, fileRecord, Nat.mul_zero, List.drop_zero,
            Nat.add_zero]
          congr 1
          apply List.map_congr_left
          intro i _
          simp only [Function.comp, List.drop_drop, Nat.succ_eq_add_one]
          have e1 : a + 1 + i = a + (i + 1) := by omega
          have e2 : 16 + 16 * i = 16 * (i + 1) := by omega
          rw [e1, e2]

/-- C9: for every input file of length `L` and every sequence of device status lines (`OK`
or not, one per command), the write session of `main` sends exactly `min(128, L / 16)`
write commands, the `i`-th being the line built for address `16 * i` from the file bytes
`[16*i, 16*i+16)`; when `L` is not a multiple of 16 nothing is sent for the final partial
chunk. -/
theorem write_session_sends_full_records (file : List Nat) (resps : List (List Char))
    (tail : List Char) (hl : ∀ l ∈ resps, LF ∉ l)
    (hk : min 128 (file.length / 16) ≤ resps.length) :
    ∃ w : Host,
      mainTx (Host.start (respStream resps ++ tail) file) = some w ∧
      w.tx = (List.range (min 128 (file.length / 16))).map
        (fun i => writeStr (16 * i) ((file.drop (16 * i)).take 16)) ∧
      w.tx.length = min 128 (file.length / 16) := by
  obtain ⟨w, h1, h2⟩ := forRecords_write 128 0 file resps tail [] [] [] hl hk
  have h3 : w.tx = (List.range (min 128 (file.length / 16))).map
      (fun i => writeStr (16 * i) ((file.drop (16 * i)).take 16)) := by
    rw [h2, List.nil_append]
    apply List.map_congr_left
    intro i _
    simp [REC_SIZE, fileRecord, Nat.mul_comm]
  refine ⟨w, h1, h3, ?_⟩
  rw [h3]
  simp

/-- C9 on a file of 40 bytes `0, 1, ..., 39` with the device answering `OK` and then `NO`:
two commands are sent, for the addresses `0x0000` and `0x0010`, and none for the last 8
bytes. -/
theorem write_session_sends_full_records_witness :
    ∃ w : Host,
      mainTx (Host.start (respStream [['O', 'K'], ['N', 'O']] ++ []) (List.range 40)) = some w ∧
      w.tx = ["W0000:000102030405060708090a0b0c0d0e0f,00\n".toList,
              "W0010:101112131415161718191a1b1c1d1e1f,00\n".toList] ∧
      w.tx.length = 2 := by
  obtain ⟨w, h1, h2, h3⟩ := write_session_sends_full_records (List.range 40)
    [['O', 'K'], ['N', 'O']] [] (by decide) (by decide)
  refine ⟨w, h1, ?_, h3⟩
  rw [h2]
  have e : min 128 ((List.range 40).length / 16) = 2 := by decide
  rw [e]
  simp only [List.range_succ, List.range_zero, List.nil_append, List.cons_append, List.map_cons,
    List.map_nil]
  rw [writeStr_eq_writeCommand _ _ (by norm_num) (by decide),
    writeStr_eq_writeCommand _ _ (by norm_num) (by decide)]
  decide

/-! ### readEprom -/

theorem parseStep_true_cerr {c : Char} {s : PVars} (h : (parseStep c s).1 = true) :
    (parseStep c s).2.cerr = s.cerr := by
  obtain ⟨st, idx, tmpVal, addr, d, ckSum, cerr⟩ := s
  cases hx : hexToInt c <;> cases st <;> simp only [parseStep, hx] at h ⊢ <;>
    first
      | rfl
      | cases h
      | (split_ifs at h ⊢ <;> rfl)

theorem parseLoop_true_cerr (l : List Char) :
    ∀ s : PVars, (parseLoop l s).1 = true → (parseLoop l s).2.cerr = s.cerr := by
  induction l with
  | nil => intro s _; rfl
  | cons x xs ih =>
    intro s hok
    rcases hstep : parseStep x s with ⟨b, t⟩
    cases b
    · simp [parseLoop, hstep] at hok
    · have hc := parseStep_true_cerr (c := x) (s := s) (by rw [hstep])
      rw [hstep] at hc
      rw [parseLoop_cons_of_step hstep] at hok ⊢
      rw [ih t hok]
      exact hc

theorem accepted_no_LF {line : List Char} (h : (parseRx line 0 [] 0).1 = true) :
    LF ∉ line := by
  intro hm
  have := parseLoop_true_allowed line _ (by simp) h LF hm
  revert this
  decide

theorem accepted_filter_CR {line : List Char} (h : (parseRx line 0 [] 0).1 = true) :
    line.filter (fun c => c ≠ CR) = line := by
  apply List.filter_eq_self.mpr
  intro c hc
  have ha := parseLoop_true_allowed line _ (by simp) h c hc
  have : c ≠ CR := by
    intro e
    rw [e] at ha
    revert ha
    decide
  simpa using this

theorem readEprom_good (a : Nat) (line post : List Char) (tx : List (List Char))
    (ifs : IfStream) (ofs : List Nat) (cerr : List String) (h : goodRecord line) :
    readEprom a ⟨line ++ LF :: 'O' :: 'K' :: LF :: post, tx, ifs, ofs, cerr⟩
      = some (true, ⟨post, tx ++ ['R' :: printfHex 4 a ++ ['\n']], ifs,
          ofs ++ payloadOf line, cerr⟩) := by
  have hcerr : (parseRx line 0 [] 0).2.cerr = [] := parseLoop_true_cerr line _ h.1
  have hck : ¬ (parseRx line 0 [] 0).2.ckSum ≠ readCkSum (parseRx line 0 [] 0).2.d := by
    rw [readCkSum_eq]; exact not_not.mpr h.2
  unfold readEprom
  simp only [sendData]
  rw [readRx_line _ line ('O' :: 'K' :: LF :: post) (accepted_no_LF h.1) rfl,
    accepted_filter_CR h.1]
  simp only [hcerr, List.append_nil, if_neg hck]
  rw [readRx_line _ ['O', 'K'] post (by decide) rfl]
  simp [payloadOf, CR]

theorem readEprom_mismatch (a : Nat) (line post : List Char) (tx : List (List Char))
    (ifs : IfStream) (ofs : List Nat) (cerr : List String) (h : mismatchRecord line) :
    readEprom a ⟨line ++ LF :: post, tx, ifs, ofs, cerr⟩
      = some (false, ⟨post, tx ++ ['R' :: printfHex 4 a ++ ['\n']], ifs, ofs,
          cerr ++ [ckErrMsg]⟩) := by
  have hcerr : (parseRx line 0 [] 0).2.cerr = [] := parseLoop_true_cerr line _ h.1
  have hck : (parseRx line 0 [] 0).2.ckSum ≠ readCkSum (parseRx line 0 [] 0).2.d := by
    rw [readCkSum_eq]; exact h.2
  unfold readEprom
  simp only [sendData]
  rw [readRx_line _ line post (accepted_no_LF h.1) rfl, accepted_filter_CR h.1]
  simp only [hcerr, List.append_nil, if_pos hck]

/-! ### The read session -/

theorem forRecords_add (body : Nat → Host → Option (Bool × Host)) (m n : Nat) :
    ∀ (a : Nat) (w : Host),
      forRecords body (m + n) a w
        = (forRecords body m a w).bind (fun w2 => forRecords body n (a + m) w2) := by
  induction m with
  | zero => intro a w; simp [forRecords]
  | succ k ih =>
    intro a w
    have e : k + 1 + n = (k + n) + 1 := by omega
    rw [e]
    simp only [forRecords]
    cases hb : body (a * REC_SIZE) w with
    | none => rfl
    | some r =>
      simp only [ih]
      have e2 : a + 1 + k = a + (k + 1) := by omega
      rw [e2]

theorem recordStream_cons (l : List Char) (ls : List (List Char)) (post : List Char) :
    recordStream (l :: ls) ++ post
      = l ++ LF :: 'O' :: 'K' :: LF :: (recordStream ls ++ post) := by
  simp [recordStream, LF]

theorem forRecords_read_good (lines : List (List Char)) :
    ∀ (a : Nat) (post : List Char) (tx : List (List Char)) (ifs : IfStream) (ofs : List Nat)
      (cerr : List String), (∀ l ∈ lines, goodRecord l) →
      ∃ tx2 : List (List Char),
        forRecords readEprom lines.length a ⟨recordStream lines ++ post, tx, ifs, ofs, cerr⟩
          = some ⟨post, tx2, ifs, ofs ++ (lines.map payloadOf).flatten, cerr⟩ := by
  induction lines with
  | nil =>
    intro a post tx ifs ofs cerr _
    exact ⟨tx, by simp [forRecords, recordStream]⟩
  | cons l ls ih =>
    intro a post tx ifs ofs cerr h
    have hl : goodRecord l := h l (by simp)
    have hls : ∀ x ∈ ls, goodRecord x := fun x hx => h x (by simp [hx])
    obtain ⟨tx2, h2⟩ := ih (a + 1) post (tx ++ ['R' :: printfHex 4 (a * REC_SIZE) ++ ['\n']]) ifs
      (ofs ++ payloadOf l) cerr hls
    refine ⟨tx2, ?_⟩
    rw [recordStream_cons, List.length_cons]
    simp only [forRecords, readEprom_good _ l _ _ _ _ _ hl]
    rw [h2]
    simp

theorem length_flatten_of_length_eq (ps : List (List Nat)) (n : Nat)
    (h : ∀ p ∈ ps, p.length = n) : ps.flatten.length = ps.length * n := by
  induction ps with
  | nil => simp
  | cons p rest ih =>
    have hp : p.length = n := h p (by simp)
    have hrest : ∀ q ∈ rest, q.length = n := fun q hq => h q (by simp [hq])
    simp only [List.flatten_cons, List.length_append, List.length_cons, ih hrest, hp]
    rw [Nat.add_mul, Nat.one_mul, Nat.add_comm]

theorem flatten_replicate_singleton (n x : Nat) :
    (List.replicate n [x]).flatten = List.replicate n x := by
  induction n with
  | zero => rfl
  | succ k ih => simp [List.replicate_succ, ih]

/-- C10 as stated fails: in a session of 128 exchanges whose record line is `0000:ff,ff`
(accepted by `parseRx`, checksum equal to the XOR of the one parsed byte) followed by `OK`,
every record succeeds and the sink receives 128 bytes, not `ROM_SIZE = 2048`. -/
theorem read_session_short_records :
    (∀ l ∈ List.replicate 128 "0000:ff,ff".toList, goodRecord l) ∧
    ∃ w : Host,
      mainRx (Host.start (recordStream (List.replicate 128 "0000:ff,ff".toList) ++ []) [])
        = some w ∧
      w.cerr = [] ∧ w.ofs = List.replicate 128 0xff ∧ w.ofs.length = 128 ∧
      w.ofs.length ≠ ROM_SIZE := by
  have hg : ∀ l ∈ List.replicate 128 "0000:ff,ff".toList, goodRecord l := by
    intro l hl
    rw [List.eq_of_mem_replicate hl]
    decide
  obtain ⟨tx2, h⟩ := forRecords_read_good (List.replicate 128 "0000:ff,ff".toList) 0 [] []
    ⟨[], false⟩ [] [] hg
  rw [List.length_replicate] at h
  have hp : payloadOf "0000:ff,ff".toList = [0xff] := by decide
  have hofs : ([] : List Nat) ++ ((List.replicate 128 "0000:ff,ff".toList).map payloadOf).flatten
      = List.replicate 128 0xff := by
    rw [List.map_replicate, hp, List.nil_append, flatten_replicate_singleton]
  refine ⟨hg, _, h, rfl, hofs, ?_, ?_⟩
  · show (([] : List Nat) ++ _).length = 128
    rw [hofs, List.length_replicate]
  · show (([] : List Nat) ++ _).length ≠ ROM_SIZE
    rw [hofs, List.length_replicate]
    decide

/-- C10, amended: on a fully successful read session, i.e. one in which for each of the
128 records the record line is accepted by `parseRx`, the received checksum equals the XOR
of the parsed payload and the status line is exactly `OK`, and in which every record line
carries `REC_SIZE = 16` payload bytes, the session ends, nothing is reported, the sink holds
the parsed payloads in order and its size is `ROM_SIZE = 2048`. -/
theorem read_session_full_success (lines : List (List Char)) (tail : List Char)
    (file : List Nat) (hn : lines.length = 128) (hg : ∀ l ∈ lines, goodRecord l)
    (h16 : ∀ l ∈ lines, (payloadOf l).length = REC_SIZE) :
    ∃ w : Host,
      mainRx (Host.start (recordStream lines ++ tail) file) = some w ∧
      w.ofs = (lines.map payloadOf).flatten ∧
      w.cerr = [] ∧
      w.ofs.length = ROM_SIZE ∧ ROM_SIZE = 2048 := by
  obtain ⟨tx2, h⟩ := forRecords_read_good lines 0 tail [] ⟨file, false⟩ [] [] hg
  rw [hn] at h
  refine ⟨_, h, by simp, rfl, ?_, rfl⟩
  have hlen := length_flatten_of_length_eq (lines.map payloadOf) REC_SIZE (by
    intro p hp
    obtain ⟨l, hl, rfl⟩ := List.mem_map.mp hp
    exact h16 l hl)
  simp only [List.nil_append, hlen, List.length_map, hn]
  rfl

/-- C10 amended, on 128 exchanges with the record line
`0000:000102030405060708090a0b0c0d0e0f,00`. -/
theorem read_session_full_success_witness :
    ∃ w : Host,
      mainRx (Host.start
        (recordStream (List.replicate 128 "0000:000102030405060708090a0b0c0d0e0f,00".toList)
          ++ []) []) = some w ∧
      w.ofs = ((List.replicate 128 "0000:000102030405060708090a0b0c0d0e0f,00".toList).map
        payloadOf).flatten ∧
      w.cerr = [] ∧
      w.ofs.length = ROM_SIZE ∧ ROM_SIZE = 2048 :=
  read_session_full_success
    (List.replicate 128 "0000:000102030405060708090a0b0c0d0e0f,00".toList) [] []
    (List.length_replicate 128 _)
    (fun l hl => by rw [List.eq_of_mem_replicate hl]; decide)
    (fun l hl => by rw [List.eq_of_mem_replicate hl]; decide)

/-- C3 as stated fails: in a read session over 2 records where record 0 is
`0000:000102030405060708090a0b0c0d0e0f,00` (checksum right) and record 1 is
`0010:000102030405060708090a0b0c0d0e0f,01` (checksum wrong, 16 payload bytes parsed), each
followed by `OK`, the sink receives the 16 bytes of record 0 only, not 2 records' worth: the
payload of the mismatched record is not written. -/
theorem read_session_drops_mismatched_record :
    goodRecord "0000:000102030405060708090a0b0c0d0e0f,00".toList ∧
    mismatchRecord "0010:000102030405060708090a0b0c0d0e0f,01".toList ∧
    (payloadOf "0010:000102030405060708090a0b0c0d0e0f,01".toList).length = 16 ∧
    ∃ w : Host,
      readSession 2 (Host.start
        (recordStream ["0000:000102030405060708090a0b0c0d0e0f,00".toList,
          "0010:000102030405060708090a0b0c0d0e0f,01".toList] ++ []) []) = some w ∧
      w.ofs = List.range 16 ∧ w.ofs.length ≠ 2 * 16 ∧ w.cerr = [ckErrMsg] := by
  have hg : goodRecord "0000:000102030405060708090a0b0c0d0e0f,00".toList := by decide
  have hm : mismatchRecord "0010:000102030405060708090a0b0c0d0e0f,01".toList := by decide
  refine ⟨hg, hm, by decide, ?_⟩
  rw [recordStream_cons, recordStream_cons]
  simp only [readSession, forRecords, Host.start, readEprom_good _ _ _ _ _ _ _ hg,
    readEprom_mismatch _ _ _ _ _ _ _ hm]
  refine ⟨_, rfl, ?_, ?_, rfl⟩
  · decide
  · decide

/-- C3, amended: in a read session over `N` records in which every exchange is a record
line accepted by `parseRx` followed by `OK`, and exactly one record, record `k`, carries a
checksum that differs from the XOR of its parsed payload: once the exchanges of the records
`0..k` have been processed, the sink has received the payload bytes of the `k` records
before the mismatched one, in order, the payload of the mismatched record is not written,
and exactly one error has been reported, the checksum mismatch.  The session over `N`
records goes on from that state with the records after `k`; what it writes and reports for
them is not stated here. -/
theorem read_session_mismatch_not_written (before : List (List Char)) (bad tail : List Char)
    (file : List Nat) (hb : ∀ l ∈ before, goodRecord l) (hm : mismatchRecord bad) :
    ∃ w : Host,
      readSession (before.length + 1)
        (Host.start (recordStream before ++ (bad ++ LF :: 'O' :: 'K' :: LF :: tail)) file)
          = some w ∧
      w.ofs = (before.map payloadOf).flatten ∧
      w.cerr = [ckErrMsg] ∧ w.cerr.length = 1 ∧
      ∀ n : Nat,
        readSession (before.length + 1 + n)
          (Host.start (recordStream before ++ (bad ++ LF :: 'O' :: 'K' :: LF :: tail)) file)
            = forRecords readEprom n (before.length + 1) w := by
  obtain ⟨tx1, h1⟩ := forRecords_read_good before 0
    (bad ++ LF :: 'O' :: 'K' :: LF :: tail) [] ⟨file, false⟩ [] [] hb
  have hk : readSession (before.length + 1)
      (Host.start (recordStream before ++ (bad ++ LF :: 'O' :: 'K' :: LF :: tail)) file)
        = some ⟨'O' :: 'K' :: LF :: tail,
            tx1 ++ ['R' :: printfHex 4 ((0 + before.length) * REC_SIZE) ++ ['\n']],
            ⟨file, false⟩, [] ++ (before.map payloadOf).flatten, [] ++ [ckErrMsg]⟩ := by
    rw [readSession, forRecords_add, Host.start, h1, Option.some_bind]
    simp only [forRecords, readEprom_mismatch _ _ _ _ _ _ _ hm]
  refine ⟨_, hk, by simp, by simp, by simp, ?_⟩
  intro n
  rw [readSession] at hk
  rw [readSession, forRecords_add, hk, Option.some_bind, Nat.zero_add]

/-- C3 amended, on the device output `0000:0102,03`, `OK`, `0010:0304,00`, `OK`,
`0020:0506,03`, `OK`: record 1 carries a wrong checksum, and after the exchanges of the
records 0 and 1 the sink holds the two bytes of record 0 and one error is reported. -/
theorem read_session_mismatch_not_written_witness :
    ∃ w : Host,
      readSession (1 + 1)
        (Host.start (recordStream ["0000:0102,03".toList]
          ++ ("0010:0304,00".toList ++ LF :: 'O' :: 'K' :: LF ::
            recordStream ["0020:0506,03".toList])) [])
          = some w ∧
      w.ofs = ([payloadOf "0000:0102,03".toList]).flatten ∧
      w.cerr = [ckErrMsg] ∧ w.cerr.length = 1 ∧
      ∀ n : Nat,
        readSession (1 + 1 + n)
          (Host.start (recordStream ["0000:0102,03".toList]
            ++ ("0010:0304,00".toList ++ LF :: 'O' :: 'K' :: LF ::
              recordStream ["0020:0506,03".toList])) [])
            = forRecords readEprom n (1 + 1) w :=
  read_session_mismatch_not_written ["0000:0102,03".toList] "0010:0304,00".toList
    (recordStream ["0020:0506,03".toList]) [] (by decide) (by decide)

/-! ### The write command read back: address, payload and checksum -/

/-- C16: for every address in `0..0xFFFF` and every payload of 16 bytes, `parseRx` (entered
with `addr = 0` and an empty vector) applied to the line `writeEprom` builds, with its
leading `'W'` and its trailing line feed removed, returns `true` with the same address, the
same 16 payload bytes in order and a checksum equal to the XOR of the payload bytes. -/
theorem parseRx_write_command_round_trip (addr : Nat) (data : List Nat) (ha : addr ≤ 0xFFFF)
    (hlen : data.length = 16) (hb : ∀ b ∈ data, b < 256) :
    (parseRx ((writeStr addr data).drop 1).dropLast 0 [] 0).1 = true ∧
    (parseRx ((writeStr addr data).drop 1).dropLast 0 [] 0).2.addr = addr ∧
    (parseRx ((writeStr addr data).drop 1).dropLast 0 [] 0).2.d = data ∧
    (parseRx ((writeStr addr data).drop 1).dropLast 0 [] 0).2.d.length = 16 ∧
    (parseRx ((writeStr addr data).drop 1).dropLast 0 [] 0).2.ckSum = xorFold data := by
  rw [parseRx_stripped_writeStr addr data ha hb]
  exact ⟨rfl, rfl, rfl, hlen, and_255_of_lt (xorFold_lt data hb)⟩

/-- C16 at address `0x07f0` and the payload `00 01 ... 0f`: the line sent is
`W07f0:000102030405060708090a0b0c0d0e0f,00`, and what follows the `'W'` parses back to
address `0x07f0`, the same bytes and checksum `0`. -/
theorem parseRx_write_command_round_trip_witness :
    writeStr 0x07f0 (List.range 16) = "W07f0:000102030405060708090a0b0c0d0e0f,00\n".toList ∧
    (parseRx "07f0:000102030405060708090a0b0c0d0e0f,00".toList 0 [] 0).1 = true ∧
    (parseRx "07f0:000102030405060708090a0b0c0d0e0f,00".toList 0 [] 0).2.addr = 0x07f0 ∧
    (parseRx "07f0:000102030405060708090a0b0c0d0e0f,00".toList 0 [] 0).2.d = List.range 16 ∧
    (parseRx "07f0:000102030405060708090a0b0c0d0e0f,00".toList 0 [] 0).2.ckSum = 0 := by
  have h := parseRx_write_command_round_trip 0x07f0 (List.range 16) (by decide) (by decide)
    (by decide)
  have e0 : writeStr 0x07f0 (List.range 16)
      = "W07f0:000102030405060708090a0b0c0d0e0f,00\n".toList := by
    rw [writeStr_eq_writeCommand _ _ (by norm_num) (by decide)]
    rfl
  have e : ((writeStr 0x07f0 (List.range 16)).drop 1).dropLast
      = "07f0:000102030405060708090a0b0c0d0e0f,00".toList := by
    rw [e0]
    rfl
  rw [e] at h
  exact ⟨e0, h.1, h.2.1, h.2.2.1, h.2.2.2.2⟩

/-! ### parseRx: the language of accepted lines -/

theorem parseLoop_cons_false {c : Char} {s : PVars} (cs : List Char)
    (h : (parseStep c s).1 = false) : (parseLoop (c :: cs) s).1 = false := by
  rcases hstep : parseStep c s with ⟨b, t⟩
  rw [hstep] at h
  simp only at h
  subst h
  simp [parseLoop, hstep]

theorem parseStep_header_any {c : Char} (hc : isLowerHex c ∨ c = 'H') (s : PVars)
    (hs : s.state = PState.HEADER) :
    ∃ t : PVars, parseStep c s = (true, t) ∧ t.state = PState.HEADER ∧ t.idx = s.idx ∧
      t.tmpVal = s.tmpVal ∧ t.d = s.d ∧ t.ckSum = s.ckSum ∧ t.cerr = s.cerr := by
  obtain ⟨st, idx, tmpVal, addr, d, ckSum, cerr⟩ := s
  simp only at hs
  subst hs
  rcases hc with hc | hc
  · exact ⟨_, parseStep_header_hex hc _ _ _ _ _ _, rfl, rfl, rfl, rfl, rfl, rfl⟩
  · subst hc
    exact ⟨_, parseStep_header_H _ _ _ _ _ _, rfl, rfl, rfl, rfl, rfl, rfl⟩

theorem parseStep_header_to_data (s : PVars) (hs : s.state = PState.HEADER) :
    parseStep ':' s = (true, { s with state := PState.DATA }) := by
  obtain ⟨st, idx, tmpVal, addr, d, ckSum, cerr⟩ := s
  simp only at hs
  subst hs
  exact parseStep_header_colon _ _ _ _ _ _

theorem parseStep_header_false {c : Char} (h1 : ¬ isLowerHex c) (h2 : c ≠ 'H') (h3 : c ≠ ':')
    (s : PVars) (hs : s.state = PState.HEADER) : (parseStep c s).1 = false := by
  obtain ⟨st, idx, tmpVal, addr, d, ckSum, cerr⟩ := s
  simp only at hs
  subst hs
  simp [parseStep, h2, h3, hexToInt_of_not_isLowerHex h1]

theorem parseStep_data_any {c : Char} (hc : isLowerHex c) (s : PVars)
    (hs : s.state = PState.DATA) :
    ∃ t : PVars, parseStep c s = (true, t) ∧ t.state = PState.DATA := by
  obtain ⟨st, idx, tmpVal, addr, d, ckSum, cerr⟩ := s
  simp only at hs
  subst hs
  simp only [parseStep, isLowerHex_ne_comma hc, hexToInt_of_isLowerHex hc, if_false]
  split_ifs
  · exact ⟨_, rfl, rfl⟩
  · exact ⟨_, rfl, rfl⟩

theorem parseStep_data_to_cksum (s : PVars) (hs : s.state = PState.DATA) :
    parseStep ',' s = (true, { s with state := PState.CKSUM }) := by
  obtain ⟨st, idx, tmpVal, addr, d, ckSum, cerr⟩ := s
  simp only at hs
  subst hs
  exact parseStep_data_comma _ _ _ _ _ _

theorem parseStep_data_false {c : Char} (h1 : ¬ isLowerHex c) (h2 : c ≠ ',')
    (s : PVars) (hs : s.state = PState.DATA) : (parseStep c s).1 = false := by
  obtain ⟨st, idx, tmpVal, addr, d, ckSum, cerr⟩ := s
  simp only at hs
  subst hs
  simp [parseStep, h2, hexToInt_of_not_isLowerHex h1]

theorem parseStep_cksum_any {c : Char} (hc : isLowerHex c) (s : PVars)
    (hs : s.state = PState.CKSUM) :
    ∃ t : PVars, parseStep c s = (true, t) ∧ t.state = PState.CKSUM := by
  obtain ⟨st, idx, tmpVal, addr, d, ckSum, cerr⟩ := s
  simp only at hs
  subst hs
  simp only [parseStep, hexToInt_of_isLowerHex hc]
  split_ifs
  · exact ⟨_, rfl, rfl⟩
  · exact ⟨_, rfl, rfl⟩

theorem parseStep_cksum_false {c : Char} (h1 : ¬ isLowerHex c)
    (s : PVars) (hs : s.state = PState.CKSUM) : (parseStep c s).1 = false := by
  obtain ⟨st, idx, tmpVal, addr, d, ckSum, cerr⟩ := s
  simp only at hs
  subst hs
  simp [parseStep, hexToInt_of_not_isLowerHex h1]

theorem hexString_cons {c : Char} {cs : List Char} :
    hexString (c :: cs) ↔ isLowerHex c ∧ hexString cs := by
  simp [hexString]

theorem headerString_cons {c : Char} {cs : List Char} :
    headerString (c :: cs) ↔ (isLowerHex c ∨ c = 'H') ∧ headerString cs := by
  simp [headerString]

theorem cksum_accepts_iff (l : List Char) :
    ∀ s : PVars, s.state = PState.CKSUM → ((parseLoop l s).1 = true ↔ hexString l) := by
  induction l with
  | nil => intro s _; simp [parseLoop, hexString]
  | cons c cs ih =>
    intro s hs
    by_cases hc : isLowerHex c
    · obtain ⟨t, ht, hts⟩ := parseStep_cksum_any hc s hs
      rw [parseLoop_cons_of_step ht, ih t hts, hexString_cons]
      exact ⟨fun h => ⟨hc, h⟩, fun h => h.2⟩
    · rw [parseLoop_cons_false cs (parseStep_cksum_false hc s hs), hexString_cons]
      constructor
      · intro h; cases h
      · intro h; exact absurd h.1 hc

/-- The data field and what may follow it: `[0-9a-f]* ( ',' [0-9a-f]* )?`. -/
theorem data_accepts_iff (l : List Char) :
    ∀ s : PVars, s.state = PState.DATA →
      ((parseLoop l s).1 = true ↔
        hexString l ∨ ∃ data ck : List Char, l = data ++ ',' :: ck ∧ hexString data ∧
          hexString ck) := by
  induction l with
  | nil =>
    intro s _
    simp [parseLoop, hexString]
  | cons c cs ih =>
    intro s hs
    by_cases hcomma : c = ','
    · subst hcomma
      rw [parseLoop_cons_of_step (parseStep_data_to_cksum s hs), cksum_accepts_iff cs _ rfl]
      constructor
      · intro h
        exact Or.inr ⟨[], cs, rfl, by simp [hexString], h⟩
      · rintro (h | ⟨data, ck, he, hd, hk⟩)
        · exact absurd (hexString_cons.mp h).1 (by decide)
        · cases data with
          | nil =>
            simp only [List.nil_append, List.cons.injEq, true_and] at he
            rw [he]; exact hk
          | cons x xs =>
            simp only [List.cons_append, List.cons.injEq] at he
            have hx := (hexString_cons.mp hd).1
            rw [← he.1] at hx
            exact absurd hx (by decide)
    · by_cases hc : isLowerHex c
      · obtain ⟨t, ht, hts⟩ := parseStep_data_any hc s hs
        rw [parseLoop_cons_of_step ht, ih t hts]
        constructor
        · rintro (h | ⟨data, ck, he, hd, hk⟩)
          · exact Or.inl (hexString_cons.mpr ⟨hc, h⟩)
          · exact Or.inr ⟨c :: data, ck, by rw [he]; rfl, hexString_cons.mpr ⟨hc, hd⟩, hk⟩
        · rintro (h | ⟨data, ck, he, hd, hk⟩)
          · exact Or.inl (hexString_cons.mp h).2
          · cases data with
            | nil =>
              simp only [List.nil_append, List.cons.injEq] at he
              exact absurd he.1 hcomma
            | cons x xs =>
              simp only [List.cons_append, List.cons.injEq] at he
              exact Or.inr ⟨xs, ck, he.2, (hexString_cons.mp hd).2, hk⟩
      · rw [parseLoop_cons_false cs (parseStep_data_false hc hcomma s hs)]
        constructor
        · intro h; cases h
        · rintro (h | ⟨data, ck, he, hd, hk⟩)
          · exact absurd (hexString_cons.mp h).1 hc
          · cases data with
            | nil =>
              simp only [List.nil_append, List.cons.injEq] at he
              exact absurd he.1 hcomma
            | cons x xs =>
              simp only [List.cons_append, List.cons.injEq] at he
              have hx := (hexString_cons.mp hd).1
              rw [← he.1] at hx
              exact absurd hx hc

theorem header_accepts_iff (l : List Char) :
    ∀ s : PVars, s.state = PState.HEADER →
      ((parseLoop l s).1 = true ↔
        headerString l ∨ ∃ header rest : List Char, l = header ++ ':' :: rest ∧
          headerString header ∧
          (hexString rest ∨ ∃ data ck : List Char, rest = data ++ ',' :: ck ∧ hexString data ∧
            hexString ck)) := by
  induction l with
  | nil =>
    intro s _
    simp [parseLoop, headerString]
  | cons c cs ih =>
    intro s hs
    by_cases hcolon : c = ':'
    · subst hcolon
      rw [parseLoop_cons_of_step (parseStep_header_to_data s hs), data_accepts_iff cs _ rfl]
      constructor
      · intro h
        exact Or.inr ⟨[], cs, rfl, by simp [headerString], h⟩
      · rintro (h | ⟨header, rest, he, hh, hr⟩)
        · exact absurd (headerString_cons.mp h).1 (by decide)
        · cases header with
          | nil =>
            simp only [List.nil_append, List.cons.injEq, true_and] at he
            rw [he]; exact hr
          | cons x xs =>
            simp only [List.cons_append, List.cons.injEq] at he
            have hx := (headerString_cons.mp hh).1
            rw [← he.1] at hx
            exact absurd hx (by decide)
    · by_cases hc : isLowerHex c ∨ c = 'H'
      · obtain ⟨t, ht, hts, _⟩ := parseStep_header_any hc s hs
        rw [parseLoop_cons_of_step ht, ih t hts]
        constructor
        · rintro (h | ⟨header, rest, he, hh, hr⟩)
          · exact Or.inl (headerString_cons.mpr ⟨hc, h⟩)
          · exact Or.inr ⟨c :: header, rest, by rw [he]; rfl,
              headerString_cons.mpr ⟨hc, hh⟩, hr⟩
        · rintro (h | ⟨header, rest, he, hh, hr⟩)
          · exact Or.inl (headerString_cons.mp h).2
          · cases header with
            | nil =>
              simp only [List.nil_append, List.cons.injEq] at he
              exact absurd he.1 hcolon
            | cons x xs =>
              simp only [List.cons_append, List.cons.injEq] at he
              exact Or.inr ⟨xs, rest, he.2, (headerString_cons.mp hh).2, hr⟩
      · have h1 : ¬ isLowerHex c := fun h => hc (Or.inl h)
        have h2 : c ≠ 'H' := fun h => hc (Or.inr h)
        rw [parseLoop_cons_false cs (parseStep_header_false h1 h2 hcolon s hs)]
        constructor
        · intro h; cases h
        · rintro (h | ⟨header, rest, he, hh, hr⟩)
          · exact absurd (headerString_cons.mp h).1 hc
          · cases header with
            | nil =>
              simp only [List.nil_append, List.cons.injEq] at he
              exact absurd he.1 hcolon
            | cons x xs =>
              simp only [List.cons_append, List.cons.injEq] at he
              have hx := (headerString_cons.mp hh).1
              rw [← he.1] at hx
              exact absurd hx hc

theorem parseRx_true_iff (line : List Char) (addr : Nat) (d : List Nat) (ckSum : Nat) :
    (parseRx line addr d ckSum).1 = true ↔ recordLanguage line := by
  unfold parseRx
  rw [header_accepts_iff line _ rfl]
  unfold recordLanguage
  constructor
  · rintro (h | ⟨header, rest, he, hh, (hr | ⟨data, ck, hd, hdh, hk⟩)⟩)
    · exact Or.inl h
    · exact Or.inr (Or.inl ⟨header, rest, he, hh, hr⟩)
    · exact Or.inr (Or.inr ⟨header, data, ck, by rw [he, hd], hh, hdh, hk⟩)
  · rintro (h | ⟨header, data, he, hh, hd⟩ | ⟨header, data, ck, he, hh, hd, hk⟩)
    · exact Or.inl h
    · exact Or.inr ⟨header, data, he, hh, Or.inl hd⟩
    · exact Or.inr ⟨header, data ++ ',' :: ck, he, hh, Or.inr ⟨data, ck, rfl, hd, hk⟩⟩

/-- C17: `parseRx` returns `true` exactly on the lines of the language
`[0-9a-fH]* ( ':' [0-9a-f]* ( ',' [0-9a-f]* )? )?`, whatever the caller's variables hold on
entry.  In particular it accepts the empty line, a line with no `':'`, a line with no `','`
and checksum fields of 0, 1 and 5 digits, and it rejects a second `':'`, a second `','`, an
`'H'` after the `':'` and a foreign character. -/
theorem parseRx_accepts_exactly_record_language (line : List Char) (addr : Nat)
    (d : List Nat) (ckSum : Nat) :
    ((parseRx line addr d ckSum).1 = true ↔ recordLanguage line) ∧
    (parseRx [] 0 [] 0).1 = true ∧
    (parseRx "H00a0".toList 0 [] 0).1 = true ∧
    (parseRx "00a0:0102".toList 0 [] 0).1 = true ∧
    (parseRx "00a0:0102,".toList 0 [] 0).1 = true ∧
    (parseRx "00a0:0102,3".toList 0 [] 0).1 = true ∧
    (parseRx "00a0:0102,30303".toList 0 [] 0).1 = true ∧
    (parseRx "00a0:01:02,03".toList 0 [] 0).1 = false ∧
    (parseRx "00a0:0102,03,04".toList 0 [] 0).1 = false ∧
    (parseRx "00a0:H0102,03".toList 0 [] 0).1 = false ∧
    (parseRx "00a0:0102,0H".toList 0 [] 0).1 = false ∧
    (parseRx "00a0;0102,03".toList 0 [] 0).1 = false := by
  refine ⟨parseRx_true_iff line addr d ckSum, ?_, ?_, ?_, ?_, ?_, ?_, ?_, ?_, ?_, ?_, ?_⟩ <;>
    decide

/-! ### parseRx: the checksum field -/

theorem parseLoop_header_any (header : List Char) :
    ∀ s : PVars, s.state = PState.HEADER → headerString header →
      ∃ t : PVars, t.state = PState.HEADER ∧ t.idx = s.idx ∧ t.tmpVal = s.tmpVal ∧
        t.d = s.d ∧ t.ckSum = s.ckSum ∧ t.cerr = s.cerr ∧
        ∀ rest : List Char, parseLoop (header ++ rest) s = parseLoop rest t := by
  induction header with
  | nil =>
    intro s hs _
    exact ⟨s, hs, rfl, rfl, rfl, rfl, rfl, fun _ => rfl⟩
  | cons c cs ih =>
    intro s hs hh
    obtain ⟨hc, hcs⟩ := headerString_cons.mp hh
    obtain ⟨t, ht, hts, h1, h2, h3, h4, h5⟩ := parseStep_header_any hc s hs
    obtain ⟨u, hus, g1, g2, g3, g4, g5, hu⟩ := ih t hts hcs
    refine ⟨u, hus, g1.trans h1, g2.trans h2, g3.trans h3, g4.trans h4, g5.trans h5, ?_⟩
    intro rest
    rw [List.cons_append, parseLoop_cons_of_step ht]
    exact hu rest

theorem parseLoop_cksum_tail (l : List Char) :
    ∀ (idx tmpVal addr : Nat) (d : List Nat) (ckSum : Nat) (cerr : List String),
      2 ≤ idx → idx + l.length < 2 ^ 32 → hexString l →
      (parseLoop l ⟨PState.CKSUM, idx, tmpVal, addr, d, ckSum, cerr⟩).2.ckSum = ckSum := by
  induction l with
  | nil => intro idx tmpVal addr d ckSum cerr _ _ _; rfl
  | cons c cs ih =>
    intro idx tmpVal addr d ckSum cerr h2 hlen hh
    obtain ⟨hc, hcs⟩ := hexString_cons.mp hh
    simp only [List.length_cons] at hlen
    have hmod : (idx + 1) % 2 ^ 32 = idx + 1 := Nat.mod_eq_of_lt (by omega)
    have hne : ¬ idx + 1 = 2 := by omega
    have hstep : parseStep c ⟨PState.CKSUM, idx, tmpVal, addr, d, ckSum, cerr⟩
        = (true, ⟨PState.CKSUM, idx + 1, ((tmpVal <<< 4) ||| hexDigitValue c) % 256, addr, d,
            ckSum, cerr⟩) := by
      simp only [parseStep, hexToInt_of_isLowerHex hc, hmod, if_neg hne]
    rw [parseLoop_cons_of_step hstep]
    exact ih _ _ _ _ _ _ (by omega) (by omega) hcs

theorem not_mem_headerString {l : List Char} (h : headerString l) : ',' ∉ l := by
  intro hm
  have := h ',' hm
  revert this
  decide

theorem not_mem_hexString {l : List Char} (h : hexString l) : ',' ∉ l := by
  intro hm
  have := h ',' hm
  revert this
  decide

/-- What `parseRx` returns as checksum on `header:data,c1 c2 rest` when the data field has an
even number of digits: the byte formed by the first two digits after the `','`. -/
theorem parseRx_cksum_first_two (header data rest : List Char) (c1 c2 : Char)
    (hh : headerString header) (hd : hexString data) (he : data.length % 2 = 0)
    (h1 : isLowerHex c1) (h2 : isLowerHex c2) (hr : hexString rest)
    (hlen : rest.length + 2 < 2 ^ 32) :
    (parseRx (header ++ ':' :: (data ++ ',' :: c1 :: c2 :: rest)) 0 [] 0).2.ckSum
      = 16 * hexDigitValue c1 + hexDigitValue c2 := by
  unfold parseRx
  obtain ⟨t, hts, g1, g2, g3, g4, g5, ht⟩ := parseLoop_header_any header
    ⟨PState.HEADER, 0, 0, 0, [], 0, []⟩ rfl hh
  obtain ⟨st, idx, tmpVal, addr, d, ckSum, cerr⟩ := t
  simp only at hts g1 g2 g3 g4 g5
  subst hts g1 g2 g3 g4 g5
  have hl : data.length = 2 * (data.length / 2) := by omega
  rw [ht, parseLoop_cons_of_step (parseStep_header_colon _ _ _ _ _ _),
    parseLoop_data _ data hl hd,
    parseLoop_cons_of_step (parseStep_data_comma _ _ _ _ _ _),
    parseLoop_cons_of_step (parseStep_cksum_hi h1 _ _ _ _),
    parseLoop_cons_of_step (parseStep_cksum_lo h2 _ _ (hexDigitValue_le h1) _ _ _)]
  exact parseLoop_cksum_tail rest _ _ _ _ _ _ (by omega) (by omega) hr

/-- C15 as stated fails: `parseRx` accepts the line `0000:00,123`, whose text after the
`','` is the three digits `123`, and returns the checksum `0x12`; it also accepts
`0000:00,`, with nothing after the `','`, and leaves the checksum at `0`. -/
theorem parseRx_accepts_long_checksum_field :
    (parseRx "0000:00,123".toList 0 [] 0).1 = true ∧
    "0000:00,123".toList = "0000:00".toList ++ ',' :: "123".toList ∧
    ',' ∉ "0000:00".toList ∧
    "123".toList.length = 3 ∧
    (parseRx "0000:00,123".toList 0 [] 0).2.ckSum = 0x12 ∧
    (parseRx "0000:00,".toList 0 [] 0).1 = true ∧
    (parseRx "0000:00,".toList 0 [] 0).2.ckSum = 0 := by
  decide

/-- C15, amended: in the Checksum state `parseRx` consumes any number of hex digits.  For
every line of fewer than `2^31` characters that `parseRx` accepts and that contains a `','`,
the line is `header:data,ck` with `ck` a string of hex digits; when `data` has an even number
of digits and `ck` starts with the two digits `c1 c2`, the returned checksum is
`16 * c1 + c2`. -/
theorem parseRx_checksum_field (line : List Char)
    (hacc : (parseRx line 0 [] 0).1 = true) (hcomma : ',' ∈ line)
    (hlen : line.length < 2 ^ 31) :
    ∃ header data ck : List Char,
      line = header ++ ':' :: (data ++ ',' :: ck) ∧
      headerString header ∧ hexString data ∧ hexString ck ∧
      (data.length % 2 = 0 → ∀ (c1 c2 : Char) (rest : List Char), ck = c1 :: c2 :: rest →
        (parseRx line 0 [] 0).2.ckSum = 16 * hexDigitValue c1 + hexDigitValue c2) := by
  rcases (parseRx_true_iff line 0 [] 0).mp hacc with
    h | ⟨header, data, he, hh, hd⟩ | ⟨header, data, ck, he, hh, hd, hk⟩
  · exact absurd hcomma (not_mem_headerString h)
  · rw [he] at hcomma
    rcases List.mem_append.mp hcomma with hm | hm
    · exact absurd hm (not_mem_headerString hh)
    · rcases List.mem_cons.mp hm with hm | hm
      · exact absurd hm (by decide)
      · exact absurd hm (not_mem_hexString hd)
  · refine ⟨header, data, ck, he, hh, hd, hk, ?_⟩
    intro hev c1 c2 rest hck
    subst hck
    obtain ⟨h1, hk2⟩ := hexString_cons.mp hk
    obtain ⟨h2, hr⟩ := hexString_cons.mp hk2
    have hl : rest.length + 2 < 2 ^ 32 := by
      rw [he] at hlen
      simp only [List.length_append, List.length_cons] at hlen
      omega
    rw [he]
    exact parseRx_cksum_first_two header data rest c1 c2 hh hd hev h1 h2 hr hl

/-- C15 amended, on the line `0000:00,123`. -/
theorem parseRx_checksum_field_witness :
    ∃ header data ck : List Char,
      "0000:00,123".toList = header ++ ':' :: (data ++ ',' :: ck) ∧
      headerString header ∧ hexString data ∧ hexString ck ∧
      (data.length % 2 = 0 → ∀ (c1 c2 : Char) (rest : List Char), ck = c1 :: c2 :: rest →
        (parseRx "0000:00,123".toList 0 [] 0).2.ckSum
          = 16 * hexDigitValue c1 + hexDigitValue c2) :=
  parseRx_checksum_field "0000:00,123".toList (by decide) (by decide) (by decide)

/-! ### readEprom on arbitrary lines -/

theorem filter_CR_of_not_mem {line : List Char} (h : CR ∉ line) :
    line.filter (fun c => c ≠ CR) = line := by
  apply List.filter_eq_self.mpr
  intro c hc
  have : c ≠ CR := fun e => h (e ▸ hc)
  simpa using this

/-- `readEprom` when the checksum of the first line does not match: one line is read. -/
theorem readEprom_one_line (a : Nat) (r1 post : List Char) (tx : List (List Char))
    (ifs : IfStream) (ofs : List Nat) (cerr : List String) (h1 : LF ∉ r1)
    (hck : (parseRx (r1.filter (fun c => c ≠ CR)) 0 [] 0).2.ckSum
      ≠ readCkSum (parseRx (r1.filter (fun c => c ≠ CR)) 0 [] 0).2.d) :
    readEprom a ⟨r1 ++ LF :: post, tx, ifs, ofs, cerr⟩
      = some (false, ⟨post, tx ++ ['R' :: printfHex 4 a ++ ['\n']], ifs, ofs,
          cerr ++ (parseRx (r1.filter (fun c => c ≠ CR)) 0 [] 0).2.cerr ++ [ckErrMsg]⟩) := by
  unfold readEprom
  simp only [sendData]
  rw [readRx_line _ r1 post h1 rfl]
  simp only [if_pos hck]

/-- `readEprom` when the checksum of the first line matches: two lines are read and the
status line decides. -/
theorem readEprom_two_lines (a : Nat) (r1 r2 post : List Char) (tx : List (List Char))
    (ifs : IfStream) (ofs : List Nat) (cerr : List String) (h1 : LF ∉ r1) (h2 : LF ∉ r2)
    (hck : (parseRx (r1.filter (fun c => c ≠ CR)) 0 [] 0).2.ckSum
      = readCkSum (parseRx (r1.filter (fun c => c ≠ CR)) 0 [] 0).2.d) :
    readEprom a ⟨r1 ++ LF :: (r2 ++ LF :: post), tx, ifs, ofs, cerr⟩
      = if r2.filter (fun c => c ≠ CR) ≠ ['O', 'K'] then
          some (false, ⟨post, tx ++ ['R' :: printfHex 4 a ++ ['\n']], ifs, ofs,
            cerr ++ (parseRx (r1.filter (fun c => c ≠ CR)) 0 [] 0).2.cerr
              ++ [respErrMsg (r2.filter (fun c => c ≠ CR))]⟩)
        else
          some (true, ⟨post, tx ++ ['R' :: printfHex 4 a ++ ['\n']], ifs,
            ofs ++ (parseRx (r1.filter (fun c => c ≠ CR)) 0 [] 0).2.d,
            cerr ++ (parseRx (r1.filter (fun c => c ≠ CR)) 0 [] 0).2.cerr⟩) := by
  have hn : ¬ (parseRx (r1.filter (fun c => c ≠ CR)) 0 [] 0).2.ckSum
      ≠ readCkSum (parseRx (r1.filter (fun c => c ≠ CR)) 0 [] 0).2.d := not_not.mpr hck
  unfold readEprom
  simp only [sendData]
  rw [readRx_line _ r1 (r2 ++ LF :: post) h1 rfl]
  simp only [if_neg hn]
  rw [readRx_line _ r2 post h2 rfl]

theorem parseLoop_append_true (pre : List Char) :
    ∀ (s : PVars) (rest : List Char), (parseLoop pre s).1 = true →
      parseLoop (pre ++ rest) s = parseLoop rest (parseLoop pre s).2 := by
  induction pre with
  | nil => intro s rest _; rfl
  | cons c cs ih =>
    intro s rest h
    rcases hstep : parseStep c s with ⟨b, t⟩
    cases b
    · simp [parseLoop, hstep] at h
    · rw [parseLoop_cons_of_step hstep] at h ⊢
      rw [List.cons_append, parseLoop_cons_of_step hstep]
      exact ih t rest h

theorem parseStep_false_keeps {c : Char} {s : PVars} (h : (parseStep c s).1 = false) :
    (parseStep c s).2.d = s.d ∧ (parseStep c s).2.ckSum = s.ckSum ∧
      (parseStep c s).2.cerr = s.cerr ++ [hexErrMsg] := by
  obtain ⟨st, idx, tmpVal, addr, d, ckSum, cerr⟩ := s
  cases hx : hexToInt c <;> cases st <;> simp only [parseStep, hx] at h ⊢ <;>
    first
      | exact ⟨trivial, trivial, trivial⟩
      | exact ⟨rfl, rfl, rfl⟩
      | (simp at h; done)
      | (split_ifs at h ⊢ <;> first
          | exact ⟨trivial, trivial, trivial⟩
          | exact ⟨rfl, rfl, rfl⟩)

theorem parseStep_no_comma_ckSum {c : Char} {s : PVars} (hs : s.state ≠ PState.CKSUM)
    (hc : c ≠ ',') :
    (parseStep c s).2.ckSum = s.ckSum ∧ (parseStep c s).2.state ≠ PState.CKSUM := by
  obtain ⟨st, idx, tmpVal, addr, d, ckSum, cerr⟩ := s
  cases hx : hexToInt c <;> cases st <;> simp only [parseStep, hx, hc, if_false] <;>
    first
      | exact absurd rfl hs
      | (split_ifs <;> simp)
      | simp

theorem parseLoop_no_comma_ckSum (l : List Char) :
    ∀ s : PVars, s.state ≠ PState.CKSUM → ',' ∉ l → (parseLoop l s).2.ckSum = s.ckSum := by
  induction l with
  | nil => intro s _ _; rfl
  | cons c cs ih =>
    intro s hs hl
    have hc : c ≠ ',' := fun e => hl (by simp [e])
    have hcs : ',' ∉ cs := fun e => hl (by simp [e])
    have hk := parseStep_no_comma_ckSum hs hc
    rcases hstep : parseStep c s with ⟨b, t⟩
    rw [hstep] at hk
    cases b
    · simp only [parseLoop, hstep]
      exact hk.1
    · rw [parseLoop_cons_of_step hstep, ih t hk.2 hcs]
      exact hk.1

/-- A line rejected at the character `c` that follows the accepted text `pre` returns the
payload and checksum decoded from `pre`, and one `cerr` line. -/
theorem parseRx_rejected_at (pre rest : List Char) (c : Char)
    (hpre : (parseRx pre 0 [] 0).1 = true) (hc : (parseRx (pre ++ [c]) 0 [] 0).1 = false) :
    (parseRx (pre ++ c :: rest) 0 [] 0).1 = false ∧
    (parseRx (pre ++ c :: rest) 0 [] 0).2.d = (parseRx pre 0 [] 0).2.d ∧
    (parseRx (pre ++ c :: rest) 0 [] 0).2.ckSum = (parseRx pre 0 [] 0).2.ckSum ∧
    (parseRx (pre ++ c :: rest) 0 [] 0).2.cerr = [hexErrMsg] := by
  have hcerr : (parseRx pre 0 [] 0).2.cerr = [] := parseLoop_true_cerr pre _ hpre
  unfold parseRx at hpre hc hcerr ⊢
  rw [parseLoop_append_true pre _ _ hpre] at hc ⊢
  rcases hstep : parseStep c (parseLoop pre ⟨PState.HEADER, 0, 0, 0, [], 0, []⟩).2 with ⟨b, t⟩
  cases b
  · have hk := parseStep_false_keeps (c := c)
      (s := (parseLoop pre ⟨PState.HEADER, 0, 0, 0, [], 0, []⟩).2) (by rw [hstep])
    rw [hstep] at hk
    have e : parseLoop (c :: rest) (parseLoop pre ⟨PState.HEADER, 0, 0, 0, [], 0, []⟩).2
        = (false, t) := by
      simp only [parseLoop, hstep]
    rw [e]
    refine ⟨rfl, hk.1, hk.2.1, ?_⟩
    rw [hk.2.2, hcerr]
    rfl
  · simp [parseLoop, hstep] at hc

/-- C18: the outcome of `readEprom` does not depend on what `parseRx` returns.  For a record
line that `parseRx` rejects, the payload it had decoded is still treated as the record: when
its XOR (masked to 8 bits) equals the received checksum and the next line is `OK`,
`readEprom` returns `true` and those bytes are written to the sink.  When the line is
rejected at the character `c` after the accepted text `pre`, the bytes and the checksum are
those decoded from `pre` (the checksum is `0` when `pre` carries none). -/
theorem readEprom_ignores_parse_failure (a : Nat) (line post : List Char)
    (tx : List (List Char)) (ifs : IfStream) (ofs : List Nat) (cerr : List String)
    (hLF : LF ∉ line) (hCR : CR ∉ line)
    (hrej : (parseRx line 0 [] 0).1 = false)
    (hck : (parseRx line 0 [] 0).2.ckSum = xorFold (parseRx line 0 [] 0).2.d &&& 0xff) :
    readEprom a ⟨line ++ LF :: 'O' :: 'K' :: LF :: post, tx, ifs, ofs, cerr⟩
      = some (true, ⟨post, tx ++ ['R' :: printfHex 4 a ++ ['\n']], ifs,
          ofs ++ (parseRx line 0 [] 0).2.d, cerr ++ (parseRx line 0 [] 0).2.cerr⟩) ∧
    (∀ (pre rest : List Char) (c : Char), line = pre ++ c :: rest →
      (parseRx pre 0 [] 0).1 = true → (parseRx (pre ++ [c]) 0 [] 0).1 = false →
      (parseRx line 0 [] 0).2.d = (parseRx pre 0 [] 0).2.d ∧
      (parseRx line 0 [] 0).2.ckSum = (parseRx pre 0 [] 0).2.ckSum ∧
      (¬ ',' ∈ pre → (parseRx line 0 [] 0).2.ckSum = 0)) := by
  constructor
  · have h := readEprom_two_lines a line ['O', 'K'] post tx ifs ofs cerr hLF (by decide)
      (by rw [filter_CR_of_not_mem hCR, readCkSum_eq]; exact hck)
    rw [filter_CR_of_not_mem hCR] at h
    rw [show line ++ LF :: 'O' :: 'K' :: LF :: post = line ++ LF :: (['O', 'K'] ++ LF :: post)
      from rfl, h]
    have e : ¬ (['O', 'K'].filter (fun c => c ≠ CR) ≠ ['O', 'K']) := by decide
    rw [if_neg e]
  · intro pre rest c he hpre hc
    subst he
    have h := parseRx_rejected_at pre rest c hpre hc
    refine ⟨h.2.1, h.2.2.1, ?_⟩
    intro hcomma
    rw [h.2.2.1]
    exact parseLoop_no_comma_ckSum pre _ (by simp) hcomma

/-- C18 on the record line `0000:0000Z` followed by `OK`: `parseRx` rejects the line at
`'Z'`, no checksum was parsed, the two zero bytes decoded before `'Z'` have XOR `0`, and
`readEprom` returns `true` after writing the two zero bytes to the sink. -/
theorem readEprom_ignores_parse_failure_witness :
    (parseRx "0000:0000Z".toList 0 [] 0).1 = false ∧
    readEprom 0 ⟨"0000:0000Z".toList ++ LF :: 'O' :: 'K' :: LF :: [], [], ⟨[], false⟩, [], []⟩
      = some (true, ⟨[], [] ++ ['R' :: printfHex 4 0 ++ ['\n']], ⟨[], false⟩, [] ++ [0, 0],
          [] ++ [hexErrMsg]⟩) :=
  ⟨by decide,
   (readEprom_ignores_parse_failure 0 "0000:0000Z".toList [] [] ⟨[], false⟩ [] []
      (by decide) (by decide) (by decide) (by decide)).1⟩

/-! ### The read commands of a session -/

theorem readEprom_progress (a : Nat) (r1 r2 post : List Char) (tx : List (List Char))
    (ifs : IfStream) (ofs : List Nat) (cerr : List String) (h1 : LF ∉ r1) (h2 : LF ∉ r2) :
    ∃ (b : Bool) (rx2 : List Char) (ofs2 : List Nat) (cerr2 : List String),
      readEprom a ⟨r1 ++ LF :: (r2 ++ LF :: post), tx, ifs, ofs, cerr⟩
        = some (b, ⟨rx2, tx ++ ['R' :: printfHex 4 a ++ ['\n']], ifs, ofs2, cerr2⟩) ∧
      (rx2 = r2 ++ LF :: post ∨ rx2 = post) := by
  by_cases hck : (parseRx (r1.filter (fun c => c ≠ CR)) 0 [] 0).2.ckSum
      = readCkSum (parseRx (r1.filter (fun c => c ≠ CR)) 0 [] 0).2.d
  · rw [readEprom_two_lines a r1 r2 post tx ifs ofs cerr h1 h2 hck]
    split_ifs
    · exact ⟨false, post, _, _, rfl, Or.inr rfl⟩
    · exact ⟨true, post, _, _, rfl, Or.inr rfl⟩
  · rw [readEprom_one_line a r1 (r2 ++ LF :: post) tx ifs ofs cerr h1 hck]
    exact ⟨false, _, _, _, rfl, Or.inl rfl⟩

theorem readRx_tx {w w2 : Host} {rxData : List Char} (h : readRx w = some (rxData, w2)) :
    w2.tx = w.tx := by
  unfold readRx at h
  cases hr : readRxLoop w.rx [] with
  | none => rw [hr] at h; cases h
  | some r =>
    rw [hr] at h
    simp only [Option.some.injEq, Prod.mk.injEq] at h
    rw [← h.2]

theorem readEprom_tx {a : Nat} {w w2 : Host} {b : Bool} (h : readEprom a w = some (b, w2)) :
    w2.tx = w.tx ++ ['R' :: printfHex 4 a ++ ['\n']] := by
  unfold readEprom at h
  simp only at h
  cases hr1 : readRx (sendData ('R' :: printfHex 4 a ++ ['\n']) w) with
  | none => rw [hr1] at h; cases h
  | some r1 =>
    obtain ⟨rxData, w1⟩ := r1
    have ht1 : w1.tx = w.tx ++ ['R' :: printfHex 4 a ++ ['\n']] := readRx_tx hr1
    rw [hr1] at h
    simp only at h
    split_ifs at h with hck
    · simp only [Option.some.injEq, Prod.mk.injEq] at h
      rw [← h.2]
      exact ht1
    · cases hr2 : readRx { w1 with cerr := w1.cerr ++ (parseRx rxData 0 [] 0).2.cerr } with
      | none => rw [hr2] at h; cases h
      | some r2 =>
        obtain ⟨rxData2, w3⟩ := r2
        have ht3 := readRx_tx hr2
        rw [hr2] at h
        simp only at h
        split_ifs at h
        · simp only [Option.some.injEq, Prod.mk.injEq] at h
          rw [← h.2]
          exact ht3.trans ht1
        · simp only [Option.some.injEq, Prod.mk.injEq] at h
          rw [← h.2]
          exact ht3.trans ht1

theorem range_succ_map_shift (f : Nat → List Char) (n : Nat) :
    (List.range (n + 1)).map f = f 0 :: (List.range n).map (fun i => f (i + 1)) := by
  rw [List.range_succ_eq_map, List.map_cons, List.map_map]
  rfl

theorem forRecords_read_tx (n : Nat) :
    ∀ (a : Nat) (w w2 : Host), forRecords readEprom n a w = some w2 →
      w2.tx = w.tx ++ (List.range n).map
        (fun i => 'R' :: printfHex 4 ((a + i) * REC_SIZE) ++ ['\n']) := by
  induction n with
  | zero =>
    intro a w w2 h
    simp only [forRecords, Option.some.injEq] at h
    simp [h]
  | succ k ih =>
    intro a w w2 h
    simp only [forRecords] at h
    cases hr : readEprom (a * REC_SIZE) w with
    | none => rw [hr] at h; cases h
    | some r =>
      obtain ⟨b, w1⟩ := r
      rw [hr] at h
      simp only at h
      rw [ih (a + 1) w1 w2 h, readEprom_tx hr, range_succ_map_shift, List.append_assoc]
      simp only [List.singleton_append, Nat.add_zero]
      congr 2
      apply List.map_congr_left
      intro i _
      have e : a + 1 + i = a + (i + 1) := by omega
      rw [e]

theorem forRecords_read_returns (n : Nat) :
    ∀ (a : Nat) (resps : List (List Char)) (tail : List Char) (tx : List (List Char))
      (ifs : IfStream) (ofs : List Nat) (cerr : List String),
      (∀ l ∈ resps, LF ∉ l) → 2 * n ≤ resps.length →
      ∃ w : Host,
        forRecords readEprom n a ⟨respStream resps ++ tail, tx, ifs, ofs, cerr⟩ = some w := by
  induction n with
  | zero =>
    intro a resps tail tx ifs ofs cerr _ _
    exact ⟨_, rfl⟩
  | succ k ih =>
    intro a resps tail tx ifs ofs cerr hl hn
    match resps, hl, hn with
    | [], _, hn => simp at hn
    | [_], _, hn =>
      simp only [List.length_cons, List.length_nil] at hn
      omega
    | r1 :: r2 :: rs, hl, hn =>
      have h1 : LF ∉ r1 := hl r1 (by simp)
      have h2 : LF ∉ r2 := hl r2 (by simp)
      have hrs : ∀ l ∈ rs, LF ∉ l := fun l hm => hl l (by simp [hm])
      have hr2s : ∀ l ∈ r2 :: rs, LF ∉ l := fun l hm => hl l (by simp [List.mem_cons.mp hm])
      simp only [List.length_cons] at hn
      obtain ⟨b, rx2, ofs2, cerr2, hr, hrx⟩ := readEprom_progress (a * REC_SIZE) r1 r2
        (respStream rs ++ tail) tx ifs ofs cerr h1 h2
      rw [respStream_cons, respStream_cons]
      simp only [forRecords, hr]
      rcases hrx with e | e
      · rw [e, ← respStream_cons]
        exact ih (a + 1) (r2 :: rs) tail _ ifs ofs2 cerr2 hr2s
          (by simp only [List.length_cons]; omega)
      · rw [e]
        exact ih (a + 1) rs tail _ ifs ofs2 cerr2 hrs (by omega)

theorem readCommand_eq (i : Nat) (h : i < 128) :
    'R' :: printfHex 4 ((0 + i) * REC_SIZE) ++ ['\n'] = readCommand i := by
  have e : (0 + i) * REC_SIZE = 16 * i := by simp [REC_SIZE, Nat.mul_comm]
  rw [e, printfHex_four (by omega)]
  rfl

theorem mainRx_tx (w w2 : Host) (h : mainRx w = some w2) :
    w2.tx = w.tx ++ (List.range 128).map readCommand := by
  refine (forRecords_read_tx 128 0 w w2 h).trans ?_
  exact congrArg (fun l => w.tx ++ l)
    (List.map_congr_left (fun i hi => readCommand_eq i (List.mem_range.mp hi)))

/-- C11: whatever lines the device answers with, provided it delivers the up to two lines
per record that `readEprom` waits for, the read session of `main` ends and has sent exactly
128 read commands in ascending address order, the `i`-th (`i = 0..127`) being the 6
characters `'R'`, the address `16 * i` as 4 zero-padded lowercase hex digits and `'\n'`; the
first is `R0000` and the last `R07f0`.  The same commands have been sent by every session
that ends, whatever the device delivered. -/
theorem read_session_sends_read_commands (resps : List (List Char)) (tail : List Char)
    (file : List Nat) (hl : ∀ l ∈ resps, LF ∉ l) (hn : 256 ≤ resps.length) :
    (∃ w : Host, mainRx (Host.start (respStream resps ++ tail) file) = some w ∧
      w.tx = (List.range 128).map readCommand) ∧
    (∀ (rx : List Char) (w : Host), mainRx (Host.start rx file) = some w →
      w.tx = (List.range 128).map readCommand) ∧
    ((List.range 128).map readCommand).length = 128 ∧
    (∀ i : Nat, (readCommand i).length = 6) ∧
    (∀ i : Nat, i < 128 → readCommand i
      = 'R' :: (hex4 (16 * i) ++ [Char.ofNat 0x0a]) ∧ 16 * i < 16 * (i + 1)) ∧
    readCommand 0 = "R0000\n".toList ∧ readCommand 127 = "R07f0\n".toList := by
  obtain ⟨w, hw⟩ := forRecords_read_returns 128 0 resps tail [] ⟨file, false⟩ [] [] hl
    (by omega)
  refine ⟨⟨w, hw, ?_⟩, ?_, by simp, ?_, ?_, by decide, by decide⟩
  · have := mainRx_tx _ w hw
    simpa [Host.start] using this
  · intro rx w2 h
    have := mainRx_tx _ w2 h
    simpa [Host.start] using this
  · intro i
    simp [readCommand, hex4]
  · intro i _
    exact ⟨rfl, by omega⟩

/-- C11 on a device that delivers 256 lines `OK`. -/
theorem read_session_sends_read_commands_witness :
    ∃ w : Host,
      mainRx (Host.start (respStream (List.replicate 256 ['O', 'K']) ++ []) []) = some w ∧
      w.tx = (List.range 128).map readCommand :=
  (read_session_sends_read_commands (List.replicate 256 ['O', 'K']) [] []
    (fun l hm => by rw [List.eq_of_mem_replicate hm]; decide)
    (by rw [List.length_replicate])).1

/-! ### The status line of a read exchange -/

/-- C12: in `readEprom`, when the record line parses and its checksum matches but the second
line is anything other than exactly `OK`, an error is reported for that record, no bytes are
appended to the sink, and the loop of `main` goes on to send the next record's read command;
when the second line is exactly `OK`, the parsed payload bytes are appended to the sink in
order. -/
theorem readEprom_status_line (i : Nat) (line st n1 n2 post : List Char)
    (tx : List (List Char)) (ifs : IfStream) (ofs : List Nat) (cerr : List String)
    (hg : goodRecord line) (hst : LF ∉ st) (h1 : LF ∉ n1) (h2 : LF ∉ n2) :
    (st.filter (fun c => c ≠ CR) ≠ ['O', 'K'] →
      readEprom (i * REC_SIZE)
          ⟨line ++ LF :: (st ++ LF :: (n1 ++ LF :: (n2 ++ LF :: post))), tx, ifs, ofs, cerr⟩
        = some (false, ⟨n1 ++ LF :: (n2 ++ LF :: post),
            tx ++ ['R' :: printfHex 4 (i * REC_SIZE) ++ ['\n']], ifs, ofs,
            cerr ++ [respErrMsg (st.filter (fun c => c ≠ CR))]⟩) ∧
      ∃ w : Host,
        forRecords readEprom 2 i
            ⟨line ++ LF :: (st ++ LF :: (n1 ++ LF :: (n2 ++ LF :: post))), tx, ifs, ofs, cerr⟩
          = some w ∧
        w.tx = tx ++ ['R' :: printfHex 4 (i * REC_SIZE) ++ ['\n'],
          'R' :: printfHex 4 ((i + 1) * REC_SIZE) ++ ['\n']]) ∧
    (st.filter (fun c => c ≠ CR) = ['O', 'K'] →
      readEprom (i * REC_SIZE)
          ⟨line ++ LF :: (st ++ LF :: (n1 ++ LF :: (n2 ++ LF :: post))), tx, ifs, ofs, cerr⟩
        = some (true, ⟨n1 ++ LF :: (n2 ++ LF :: post),
            tx ++ ['R' :: printfHex 4 (i * REC_SIZE) ++ ['\n']], ifs,
            ofs ++ payloadOf line, cerr⟩)) := by
  have hf : line.filter (fun c => c ≠ CR) = line := accepted_filter_CR hg.1
  have hcerr : (parseRx line 0 [] 0).2.cerr = [] := parseLoop_true_cerr line _ hg.1
  have h := readEprom_two_lines (i * REC_SIZE) line st (n1 ++ LF :: (n2 ++ LF :: post)) tx ifs
    ofs cerr (accepted_no_LF hg.1) hst (by rw [hf, readCkSum_eq]; exact hg.2)
  rw [hf, hcerr, List.append_nil] at h
  constructor
  · intro hne
    rw [if_pos hne] at h
    refine ⟨h, ?_⟩
    obtain ⟨b, rx2, ofs2, cerr2, hr, _⟩ := readEprom_progress ((i + 1) * REC_SIZE) n1 n2 post
      (tx ++ ['R' :: printfHex 4 (i * REC_SIZE) ++ ['\n']]) ifs ofs
      (cerr ++ [respErrMsg (st.filter (fun c => c ≠ CR))]) h1 h2
    refine ⟨⟨rx2, tx ++ ['R' :: printfHex 4 (i * REC_SIZE) ++ ['\n']]
      ++ ['R' :: printfHex 4 ((i + 1) * REC_SIZE) ++ ['\n']], ifs, ofs2, cerr2⟩, ?_, ?_⟩
    · simp only [forRecords, h, hr]
    · simp
  · intro heq
    have hn : ¬ st.filter (fun c => c ≠ CR) ≠ ['O', 'K'] := not_not.mpr heq
    rw [if_neg hn] at h
    exact h

/-- C12 on the record line `0000:0102,03` followed by the status line `ERR`, the next
exchange being `0010:0304,07` and `OK`. -/
theorem readEprom_status_line_witness :
    readEprom (0 * REC_SIZE)
        ⟨"0000:0102,03".toList ++ LF :: ("ERR".toList ++ LF ::
          ("0010:0304,07".toList ++ LF :: (['O', 'K'] ++ LF :: []))), [], ⟨[], false⟩, [], []⟩
      = some (false, ⟨"0010:0304,07".toList ++ LF :: (['O', 'K'] ++ LF :: []),
          [] ++ ['R' :: printfHex 4 (0 * REC_SIZE) ++ ['\n']], ⟨[], false⟩, [],
          [] ++ [respErrMsg ("ERR".toList.filter (fun c => c ≠ CR))]⟩) ∧
    ∃ w : Host,
      forRecords readEprom 2 0
          ⟨"0000:0102,03".toList ++ LF :: ("ERR".toList ++ LF ::
            ("0010:0304,07".toList ++ LF :: (['O', 'K'] ++ LF :: []))), [], ⟨[], false⟩, [], []⟩
        = some w ∧
      w.tx = [] ++ ['R' :: printfHex 4 (0 * REC_SIZE) ++ ['\n'],
        'R' :: printfHex 4 ((0 + 1) * REC_SIZE) ++ ['\n']] :=
  (readEprom_status_line 0 "0000:0102,03".toList "ERR".toList "0010:0304,07".toList ['O', 'K']
    [] [] ⟨[], false⟩ [] [] (by decide) (by decide) (by decide) (by decide)).1 (by decide)

/-! ### Lines consumed by a read exchange -/

/-- C14 fails on the code: with the device output `0000:0102,04`, `OK`, `0010:0304,07`, `OK`
(record 0 carries a wrong checksum, record 1 is well-formed), the first `readEprom` call
reads the record line only and leaves its `OK` unread; the second call then reads `OK` as its
record line and `0010:0304,07` as its status line, reports two more errors and writes
nothing, and the last `OK` is left over. -/
theorem read_session_out_of_step :
    goodRecord "0010:0304,07".toList ∧
    readEprom 0 (Host.start "0000:0102,04\nOK\n0010:0304,07\nOK\n".toList [])
      = some (false, ⟨"OK\n0010:0304,07\nOK\n".toList, ["R0000\n".toList], ⟨[], false⟩, [],
          [ckErrMsg]⟩) ∧
    readSession 2 (Host.start "0000:0102,04\nOK\n0010:0304,07\nOK\n".toList [])
      = some ⟨"OK\n".toList, ["R0000\n".toList, "R0010\n".toList], ⟨[], false⟩, [],
          [ckErrMsg, hexErrMsg, respErrMsg "0010:0304,07".toList]⟩ := by
  refine ⟨by decide, ?_, ?_⟩
  · decide
  · decide

/-! ### main and a transport that failed to open -/

theorem forRecords_succ_of_some {body : Nat → Host → Option (Bool × Host)} {k a : Nat}
    {w w2 : Host} {b : Bool} (h : body (a * REC_SIZE) w = some (b, w2)) :
    forRecords body (k + 1) a w = forRecords body k (a + 1) w2 := by
  simp only [forRecords, h]

theorem main_handle_irrelevant (cmd : CMD) (ifd1 ifd2 : Int) (w : Host) :
    (main cmd ifd1 w).map (fun r => r.2) = (main cmd ifd2 w).map (fun r => r.2) := by
  cases cmd
  · simp [main]
  · simp only [main]
    cases getVersion w <;> simp
  · simp only [main]
    cases mainRx w <;> simp
  · simp only [main]
    cases mainTx w <;> simp

/-- C13 fails on the code: when `open` returns `-1`, `main` prints the error line and goes
on into the session.  In write mode with an 8-byte input file it runs the whole write
session (the input stream ends in its fail state) and exits with status 0; in version and
read mode, where no byte can arrive, it never returns.  The handle is consulted nowhere
else: for every command and host state the exit status and the final state are those of a
run with a valid handle, e.g. in version mode `V` is handed to `sendData` and a line is
read. -/
theorem main_continues_after_open_failure :
    main CMD.CMD_TX (-1) (Host.start [] (List.range 8))
      = some ([openErrMsg], 0, ⟨[], [], ⟨[], true⟩, [], []⟩) ∧
    main CMD.CMD_VER (-1) (Host.start [] []) = none ∧
    main CMD.CMD_RX (-1) (Host.start [] []) = none ∧
    main CMD.CMD_VER (-1) (Host.start "v1\n".toList [])
      = some ([openErrMsg], 0, ⟨[], ["V\n".toList], ⟨[], false⟩, [], []⟩) ∧
    (∀ (cmd : CMD) (w : Host),
      (main cmd (-1) w).map (fun r => r.2) = (main cmd 3 w).map (fun r => r.2)) := by
  refine ⟨?_, by decide, by decide, by decide, fun cmd w => main_handle_irrelevant cmd _ _ w⟩
  have h1 := writeEprom_short (0 * REC_SIZE) [] [] (List.range 8) [] [] (by decide)
  have h2 := forRecords_write_bad 127 (0 + 1) [] [] [] [] []
  have e : ROM_SIZE / REC_SIZE = 127 + 1 := by decide
  simp only [main, mainTx, writeSession, Host.start]
  rw [e, forRecords_succ_of_some h1, h2]
  decide

end EpromClient
